import Mathlib

/-!
# Verification of the Mitzori expense-scraper pipeline

Shallow embedding of the text-normalisation and aggregation logic of
`aliexpress_scraper.py`, `cnfans_scraper.py` and `csv_to_pdf.py`:

* Python `float(...)` on the strings reachable here is modelled exactly over `ℚ`
  (decimal literals with optional exponent, and the special spellings
  inf / infinity / nan); binary rounding of IEEE-754 doubles is not modelled,
  so monetary values are exact rationals.
* `re.search`-based extraction is modelled by direct scanning functions that are
  equivalent to the concrete patterns used in the source (the patterns involved
  never benefit from backtracking, see the comments at each matcher).
* `datetime.strptime` is modelled field by field following CPython `_strptime`
  (two-digit-or-one-digit numeric fields, full-match requirement, calendar
  validation on construction).
-/

namespace Mitzori

/-! ## Basic character utilities -/

/-- Python whitespace (`\s` for the ASCII range, which is all the scripts feed it). -/
def isWs (c : Char) : Bool :=
  c = ' ' ∨ c = '\t' ∨ c = '\n' ∨ c = '\r' ∨ c = Char.ofNat 11 ∨ c = Char.ofNat 12

/-- ASCII lower-casing, the effect of Python `str.lower()` on the inputs used here. -/
def lowerA (c : Char) : Char :=
  if 'A' ≤ c ∧ c ≤ 'Z' then Char.ofNat (c.toNat + 32) else c

/-- Numeric value of a decimal digit character. -/
def digVal (c : Char) : ℕ := c.toNat - 48

/-- Value of a digit string, most significant first. -/
def natOfDigits (l : List Char) : ℕ := l.foldl (fun a c => 10 * a + digVal c) 0

/-- Python `str.strip()`: remove leading and trailing whitespace. -/
def pyStrip (l : List Char) : List Char :=
  (l.dropWhile isWs).reverse.dropWhile isWs |>.reverse

/-- Substring containment test (Python `in` on strings). -/
def containsSub (pat l : List Char) : Bool :=
  l.tails.any (fun t => pat.isPrefixOf t)

/-! ## Python `float()` model

`pyFloat` models CPython `float(s)` on strings without surrounding whitespace
and without underscore digit grouping (none of the call sites in the scripts
can produce either): an optional sign, then either a special spelling
(`inf`, `infinity`, `nan`, case-insensitive) or a decimal literal
`digits* [. digits*] [(e|E) [sign] digits+]` with at least one mantissa digit.
The finite result is the exact rational value of the literal. -/

inductive PyFloat where
  | finite (q : ℚ)
  | pinf
  | ninf
  | nan
  deriving DecidableEq, Repr

/-- The rest of a mantissa after its integer-digit prefix `intp`. -/
def parseMantissaTail (intp : List Char) :
    List Char → Option (List Char × List Char × List Char)
  | c :: r2 =>
      if c = '.' then
        if intp = [] ∧ r2.takeWhile Char.isDigit = [] then none
        else some (intp, r2.takeWhile Char.isDigit, r2.dropWhile Char.isDigit)
      else if intp = [] then none else some (intp, [], c :: r2)
  | [] => if intp = [] then none else some (intp, [], [])

/-- Mantissa of a float literal: integer digits, optional dot, fraction digits.
Returns `(intDigits, fracDigits, rest)`; fails when no mantissa digit exists. -/
def parseMantissa (l : List Char) : Option (List Char × List Char × List Char) :=
  parseMantissaTail (l.takeWhile Char.isDigit) (l.dropWhile Char.isDigit)

/-- The digit run of an exponent (`e` and an optional sign already consumed):
nonempty, all digits, nothing after. -/
def expDigits (eneg : Bool) (r2 : List Char) : Option ℤ :=
  if r2 ≠ [] ∧ r2.all Char.isDigit then
    some (if eneg then -(natOfDigits r2 : ℤ) else (natOfDigits r2 : ℤ))
  else none

/-- The optional sign and digit run after the `e` of an exponent. -/
def parseExpSign (r : List Char) : Option ℤ :=
  match r with
  | a :: t =>
      if a = '+' then expDigits false t
      else if a = '-' then expDigits true t
      else expDigits false (a :: t)
  | [] => expDigits false []

/-- Exponent suffix of a float literal; `some e` only when the whole remaining
input is consumed. The empty input means exponent `0`. -/
def parseExpAll (l : List Char) : Option ℤ :=
  match l with
  | [] => some 0
  | c :: r => if c = 'e' ∨ c = 'E' then parseExpSign r else none

/-- Exact rational value of a parsed decimal literal
`[-] intp . frac e±k`, computed as a single normalised fraction. -/
def litVal (neg : Bool) (intp frac : List Char) (e : ℤ) : ℚ :=
  let base : ℤ := (natOfDigits (intp ++ frac) : ℤ) * (10 : ℤ) ^ e.toNat
  let den : ℕ := (10 : ℕ) ^ ((-e).toNat + frac.length)
  mkRat (if neg then -base else base) den

/-- The part of `float()` after the optional leading sign. -/
def pyFloatBody (neg : Bool) (r : List Char) : Option PyFloat :=
  if r.map lowerA = ['i', 'n', 'f']
      ∨ r.map lowerA = ['i', 'n', 'f', 'i', 'n', 'i', 't', 'y'] then
    some (if neg then PyFloat.ninf else PyFloat.pinf)
  else if r.map lowerA = ['n', 'a', 'n'] then
    some PyFloat.nan
  else
    match parseMantissa r with
    | none => none
    | some (intp, frac, rest) =>
        match parseExpAll rest with
        | none => none
        | some e => some (PyFloat.finite (litVal neg intp frac e))

/-- CPython `float()` on a character list (see module comment for scope). -/
def pyFloat (l : List Char) : Option PyFloat :=
  match l with
  | [] => none
  | c :: r =>
      if c = '+' then pyFloatBody false r
      else if c = '-' then pyFloatBody true r
      else pyFloatBody false (c :: r)

/-! ## `cnfans_scraper.parse_money`

`re.search(r"[-]?\d[\d.,]*", value)`: the leftmost match starts at the first
digit, or at a minus sign immediately followed by a digit; the body is the
maximal following run of digits, dots and commas.  (`[\d.,]*` is the last
pattern element, so greediness is exact and no backtracking can occur.) -/

/-- The token-body character class `[\d.,]`. -/
def moneyChar (x : Char) : Bool := x.isDigit ∨ x = '.' ∨ x = ','

/-- Whether a list starts with a digit. -/
def headDigit : List Char → Bool
  | d :: _ => d.isDigit
  | [] => false

/-- Leftmost match of the money-token pattern `[-]?\d[\d.,]*`: a match starts
at the first digit, or at a minus sign immediately followed by a digit (a
digit after the sign extends into the same maximal `[\d.,]*` run). -/
def findMoneyToken : List Char → Option (List Char)
  | [] => none
  | c :: r =>
      if c.isDigit then some (c :: r.takeWhile moneyChar)
      else if c = '-' ∧ headDigit r then some ('-' :: r.takeWhile moneyChar)
      else findMoneyToken r

/-- Index of the last occurrence of `c` (Python `str.rfind`; `-1` when absent). -/
def rfindC (l : List Char) (c : Char) : ℤ :=
  match l with
  | [] => -1
  | a :: r =>
      let i := rfindC r c
      if 0 ≤ i then i + 1 else if a = c then 0 else -1

/-- Python `str.split(sep)` for a single separator character. -/
def splitOnC (c : Char) (l : List Char) : List (List Char) :=
  match l with
  | [] => [[]]
  | a :: r =>
      let rest := splitOnC c r
      if a = c then [] :: rest
      else
        match rest with
        | g :: gs => (a :: g) :: gs
        | [] => [[a]]

/-- Interpreting a token with the comma as the decimal separator: dots
(thousands separators) are stripped and the comma becomes a decimal point. -/
def commaAsDecimal (num : List Char) : List Char :=
  (num.filter (fun c => c ≠ '.')).map (fun c => if c = ',' then '.' else c)

/-- Interpreting the commas of a token as thousands separators: strip them. -/
def stripCommas (num : List Char) : List Char :=
  num.filter (fun c => c ≠ ',')

/-- The separator heuristic of `parse_money` (lines 92-116 of
`cnfans_scraper.py`), producing the string handed to Python `float`. -/
def moneyTransform (num : List Char) : List Char :=
  if ',' ∈ num ∧ '.' ∈ num then
    if rfindC num ',' > rfindC num '.' then commaAsDecimal num
    else stripCommas num
  else if ',' ∈ num then
    if ((splitOnC ',' num).getLastD []).length = 2 then
      commaAsDecimal num
    else stripCommas num
  else
    stripCommas num

/-- `float(num)` guarded by `except ValueError: return 0.0` (the transformed
money tokens contain only sign, digits and separators, so the result is
always finite). -/
def floatOrZero (l : List Char) : ℚ :=
  match pyFloat l with
  | some (PyFloat.finite q) => q
  | _ => 0

/-- `cnfans_scraper.parse_money`: extract the money token, apply the separator
heuristic, and read the result with `float` (`0` on any failure). -/
def parse_money (value : String) : ℚ :=
  if value = "" then 0
  else
    match findMoneyToken value.toList with
    | none => 0
    | some num => floatOrZero (moneyTransform num)

/-! ## `datetime.strptime` model

CPython `_strptime` compiles each directive to a regex fragment
(`%d ↦ 3[01]|[12]\d|0[1-9]|[1-9]`, `%m ↦ 1[0-2]|0[1-9]|[1-9]`,
`%Y ↦ \d\d\d\d`, `%H ↦ 2[0-3]|[0-1]\d|\d`, `%M,%S ↦ [0-5]\d|\d`),
maps whitespace in the format to `\s+`, requires the match to consume the
whole input, and finally validates the fields through the `datetime`
constructor.  Each alternation prefers the two-digit form, and since in every
format used here a numeric field is followed by a non-digit (or the end via a
four-digit year), the first-alternative-wins reading is exact. -/

/-- A calendar date as produced by `datetime.date`. -/
structure MDate where
  year : ℕ
  month : ℕ
  day : ℕ
  deriving DecidableEq, Repr

/-- Gregorian leap year, as in `datetime`. -/
def isLeap (y : ℕ) : Bool := y % 4 = 0 ∧ (y % 100 ≠ 0 ∨ y % 400 = 0)

/-- Length of a month, as validated by the `datetime` constructor. -/
def daysInMonth (y m : ℕ) : ℕ :=
  if m = 2 then (if isLeap y then 29 else 28)
  else if m = 4 ∨ m = 6 ∨ m = 9 ∨ m = 11 then 30
  else 31

/-- The validity check performed by `datetime(year, month, day)`. -/
def dateOk (y m d : ℕ) : Bool :=
  1 ≤ y ∧ 1 ≤ m ∧ m ≤ 12 ∧ 1 ≤ d ∧ d ≤ daysInMonth y m

/-- A valid calendar date (the invariant `datetime.date` guarantees). -/
def MDate.Valid (dt : MDate) : Prop := dateOk dt.year dt.month dt.day = true

/-- `%d`: two-digit day `01`-`31`, else a single digit `1`-`9`. -/
def parseD (l : List Char) : Option (ℕ × List Char) :=
  match l with
  | a :: b :: r =>
      if (a = '3' ∧ (b = '0' ∨ b = '1')) ∨ ((a = '1' ∨ a = '2') ∧ b.isDigit)
          ∨ (a = '0' ∧ ('1' ≤ b ∧ b ≤ '9')) then
        some (10 * digVal a + digVal b, r)
      else if '1' ≤ a ∧ a ≤ '9' then some (digVal a, b :: r)
      else none
  | [a] => if '1' ≤ a ∧ a ≤ '9' then some (digVal a, []) else none
  | [] => none

/-- `%m`: two-digit month `01`-`12`, else a single digit `1`-`9`. -/
def parseM (l : List Char) : Option (ℕ × List Char) :=
  match l with
  | a :: b :: r =>
      if (a = '1' ∧ ('0' ≤ b ∧ b ≤ '2')) ∨ (a = '0' ∧ ('1' ≤ b ∧ b ≤ '9')) then
        some (10 * digVal a + digVal b, r)
      else if '1' ≤ a ∧ a ≤ '9' then some (digVal a, b :: r)
      else none
  | [a] => if '1' ≤ a ∧ a ≤ '9' then some (digVal a, []) else none
  | [] => none

/-- `%Y`: exactly four digits. -/
def parseY (l : List Char) : Option (ℕ × List Char) :=
  match l with
  | a :: b :: c :: d :: r =>
      if a.isDigit ∧ b.isDigit ∧ c.isDigit ∧ d.isDigit then
        some (natOfDigits [a, b, c, d], r)
      else none
  | _ => none

/-- `%H`: `00`-`23` as two digits, else any single digit. -/
def parseH (l : List Char) : Option (ℕ × List Char) :=
  match l with
  | a :: b :: r =>
      if (a = '2' ∧ ('0' ≤ b ∧ b ≤ '3')) ∨ ((a = '0' ∨ a = '1') ∧ b.isDigit) then
        some (10 * digVal a + digVal b, r)
      else if a.isDigit then some (digVal a, b :: r)
      else none
  | [a] => if a.isDigit then some (digVal a, []) else none
  | [] => none

/-- `%M` and `%S`: `00`-`59` as two digits, else any single digit. -/
def parseMS (l : List Char) : Option (ℕ × List Char) :=
  match l with
  | a :: b :: r =>
      if ('0' ≤ a ∧ a ≤ '5') ∧ b.isDigit then
        some (10 * digVal a + digVal b, r)
      else if a.isDigit then some (digVal a, b :: r)
      else none
  | [a] => if a.isDigit then some (digVal a, []) else none
  | [] => none

/-- One element of a compiled `strptime` format. -/
inductive FmtItem where
  | D | M | Y | H | Mi | S
  | lit (c : Char)
  | ws
  deriving DecidableEq, Repr

/-- A literal character of a format. -/
def litChar (c : Char) : List Char → Option (List Char)
  | a :: l2 => if a = c then some l2 else none
  | [] => none

/-- Whitespace in a format matches one or more whitespace characters. -/
def wsRun : List Char → Option (List Char)
  | a :: l2 => if isWs a then some (l2.dropWhile isWs) else none
  | [] => none

/-- Run a compiled format over the input, threading the day/month/year fields
(`strptime` defaults: 1900-01-01); the whole input must be consumed. -/
def runItems (d m y : ℕ) : List FmtItem → List Char → Option (ℕ × ℕ × ℕ)
  | [], l => if l = [] then some (d, m, y) else none
  | FmtItem.D :: rest, l => (parseD l).bind (fun p => runItems p.1 m y rest p.2)
  | FmtItem.M :: rest, l => (parseM l).bind (fun p => runItems d p.1 y rest p.2)
  | FmtItem.Y :: rest, l => (parseY l).bind (fun p => runItems d m p.1 rest p.2)
  | FmtItem.H :: rest, l => (parseH l).bind (fun p => runItems d m y rest p.2)
  | FmtItem.Mi :: rest, l => (parseMS l).bind (fun p => runItems d m y rest p.2)
  | FmtItem.S :: rest, l => (parseMS l).bind (fun p => runItems d m y rest p.2)
  | FmtItem.lit c :: rest, l => (litChar c l).bind (fun l2 => runItems d m y rest l2)
  | FmtItem.ws :: rest, l => (wsRun l).bind (fun l2 => runItems d m y rest l2)

/-- `datetime.strptime(input, fmt).date()`: run the format, then validate the
fields through the `datetime` constructor. -/
def strptimeDate (fmt : List FmtItem) (l : List Char) : Option MDate :=
  (runItems 1 1 1900 fmt l).bind
    (fun t => if dateOk t.2.2 t.2.1 t.1 then some ⟨t.2.2, t.2.1, t.1⟩ else none)

/-- The ordered candidate list of `parse_create_time_to_date`
(lines 53-67 of `cnfans_scraper.py`). -/
def fmtsCnfans : List (List FmtItem) :=
  [[.D, .lit '-', .M, .lit '-', .Y],
   [.D, .lit '-', .M, .lit '-', .Y, .ws, .H, .lit ':', .Mi],
   [.D, .lit '-', .M, .lit '-', .Y, .ws, .H, .lit ':', .Mi, .lit ':', .S],
   [.Y, .lit '-', .M, .lit '-', .D],
   [.Y, .lit '-', .M, .lit '-', .D, .ws, .H, .lit ':', .Mi],
   [.Y, .lit '-', .M, .lit '-', .D, .ws, .H, .lit ':', .Mi, .lit ':', .S],
   [.D, .lit '/', .M, .lit '/', .Y],
   [.D, .lit '/', .M, .lit '/', .Y, .ws, .H, .lit ':', .Mi],
   [.D, .lit '/', .M, .lit '/', .Y, .ws, .H, .lit ':', .Mi, .lit ':', .S],
   [.M, .lit '/', .D, .lit '/', .Y],
   [.M, .lit '/', .D, .lit '/', .Y, .ws, .H, .lit ':', .Mi],
   [.M, .lit '/', .D, .lit '/', .Y, .ws, .H, .lit ':', .Mi, .lit ':', .S]]

/-- The day-first slash format `%d/%m/%Y` (seventh candidate). -/
def fmtDMYslash : List FmtItem := [.D, .lit '/', .M, .lit '/', .Y]

/-- The month-first slash format `%m/%d/%Y` (tenth candidate). -/
def fmtMDYslash : List FmtItem := [.M, .lit '/', .D, .lit '/', .Y]

/-- Try the candidate formats in order, returning the first success. -/
def tryFmts : List (List FmtItem) → List Char → Option MDate
  | [], _ => none
  | f :: fs, l => (strptimeDate f l).orElse (fun _ => tryFmts fs l)

/-- Remove every occurrence of the literal `Create Time:`
(Python `str.replace`, which scans left to right without overlap). -/
def removeCreateTime : List Char → List Char
  | 'C' :: 'r' :: 'e' :: 'a' :: 't' :: 'e' :: ' ' :: 'T' :: 'i' :: 'm' :: 'e' :: ':' :: r =>
      removeCreateTime r
  | c :: r => c :: removeCreateTime r
  | [] => []

/-- `re.sub(r"\s+", " ", s)`: collapse every maximal whitespace run to one
space.  `prevWs` records whether the previous character was part of a run. -/
def collapseWs (prevWs : Bool) : List Char → List Char
  | [] => []
  | c :: r =>
      if isWs c then
        (if prevWs then collapseWs true r else ' ' :: collapseWs true r)
      else c :: collapseWs false r

/-- The cleaning steps of `parse_create_time_to_date`: strip, drop the
`Create Time:` label, strip again, collapse whitespace runs. -/
def cleanCreateTime (raw : String) : List Char :=
  collapseWs false (pyStrip (removeCreateTime (pyStrip raw.toList)))

/-- `cnfans_scraper.parse_create_time_to_date`: clean the raw text and try the
fixed format list in order; `None` when the input is empty or nothing matches. -/
def parse_create_time_to_date (raw : String) : Option MDate :=
  if raw = "" then none
  else tryFmts fmtsCnfans (cleanCreateTime raw)

/-! ## `aliexpress_scraper.procesar_fecha`

The pattern `(\d+)\s+([a-z]{3}),\s+(\d{4})` is searched in the lowercased
text.  Backtracking never changes the outcome: shortening a greedy `\d+` or
`\s+` run leaves a character of the same class in front of a follower that
rejects it, and `[a-z]{3}` and `(\d{4})` are fixed-width.  The model therefore
attempts a maximal-run match at each position, left to right. -/

/-- Attempt the date pattern at the head of the input. -/
def fechaMatchAt (l : List Char) : Option (List Char × List Char × List Char) :=
  let dia := l.takeWhile Char.isDigit
  if dia = [] then none
  else
    match l.dropWhile Char.isDigit with
    | w1 :: r1 =>
        if isWs w1 then
          match r1.dropWhile isWs with
          | a :: b :: c :: c4 :: r2 =>
              if c4 = ',' ∧ ('a' ≤ a ∧ a ≤ 'z') ∧ ('a' ≤ b ∧ b ≤ 'z')
                  ∧ ('a' ≤ c ∧ c ≤ 'z') then
                match r2 with
                | w2 :: r3 =>
                    if isWs w2 then
                      match r3.dropWhile isWs with
                      | y1 :: y2 :: y3 :: y4 :: _ =>
                          if y1.isDigit ∧ y2.isDigit ∧ y3.isDigit ∧ y4.isDigit then
                            some (dia, [a, b, c], [y1, y2, y3, y4])
                          else none
                      | _ => none
                    else none
                | [] => none
              else none
          | _ => none
        else none
    | [] => none

/-- `re.search` of the date pattern: try each start position left to right. -/
def fechaSearch : List Char → Option (List Char × List Char × List Char)
  | [] => none
  | c :: r => (fechaMatchAt (c :: r)).orElse (fun _ => fechaSearch r)

/-- The Spanish month-abbreviation table `MESES` of `aliexpress_scraper.py`. -/
def MESES : List (List Char × List Char) :=
  [("ene".toList, "01".toList), ("feb".toList, "02".toList),
   ("mar".toList, "03".toList), ("abr".toList, "04".toList),
   ("may".toList, "05".toList), ("jun".toList, "06".toList),
   ("jul".toList, "07".toList), ("ago".toList, "08".toList),
   ("sep".toList, "09".toList), ("oct".toList, "10".toList),
   ("nov".toList, "11".toList), ("dic".toList, "12".toList)]

/-- `MESES.get(mes_txt, '01')`. -/
def mesesGet (k : List Char) : List Char :=
  ((MESES.find? (fun p => p.1 = k)).map Prod.snd).getD "01".toList

/-- `aliexpress_scraper.procesar_fecha`: returns the formatted date and the
`month-year` grouping key, or the sentinel pair when the pattern is absent.
`none` models the uncaught `ValueError` of `strptime` on an invalid day. -/
def procesar_fecha (texto : String) : Option (String × String) :=
  match fechaSearch (texto.toList.map lowerA) with
  | some (dia, mesTxt, anio) =>
      let mesNum := mesesGet mesTxt
      let fechaStr := dia ++ '/' :: (mesNum ++ '/' :: anio)
      match strptimeDate fmtDMYslash fechaStr with
      | some _ => some (String.mk fechaStr, String.mk (mesNum ++ '-' :: anio))
      | none => none
  | none => some ("Fecha desconocida", "Desconocido")

/-! ## `aliexpress_scraper.limpiar_precio` -/

/-- Remove every occurrence of the literal `Total:` (Python `str.replace`). -/
def removeTotalLabel : List Char → List Char
  | 'T' :: 'o' :: 't' :: 'a' :: 'l' :: ':' :: r => removeTotalLabel r
  | c :: r => c :: removeTotalLabel r
  | [] => []

/-- The character class of `re.sub(r'[€$£USCHFzł\s]', '', texto)`. -/
def aliStripped (c : Char) : Bool :=
  c = '€' ∨ c = '$' ∨ c = '£' ∨ c = 'U' ∨ c = 'S' ∨ c = 'C' ∨ c = 'H'
    ∨ c = 'F' ∨ c = 'z' ∨ c = 'ł' ∨ isWs c

/-- The symbol-removal stage of `limpiar_precio`: drop `Total:` labels, strip,
remove currency symbols and whitespace. -/
def symbolCleaned (s : String) : List Char :=
  (pyStrip (removeTotalLabel s.toList)).filter (fun c => ¬ aliStripped c)

/-- The full cleaning pipeline of `limpiar_precio`: symbols removed, then
every comma turned into a dot. -/
def cleanAli (s : String) : List Char :=
  (symbolCleaned s).map (fun c => if c = ',' then '.' else c)

/-- `aliexpress_scraper.limpiar_precio`: clean the price text and read it with
Python `float`; a `ValueError` degrades to `0.0`. -/
def limpiar_precio (s : String) : PyFloat :=
  match pyFloat (cleanAli s) with
  | some v => v
  | none => PyFloat.finite 0

/-- The `float`-with-`0.0`-fallback step of `limpiar_precio` as a function of
the text handed to `float` (`limpiar_precio s` is this applied to
`cleanAli s`). -/
def pyFloatOrZero (l : List Char) : PyFloat :=
  match pyFloat l with
  | some v => v
  | none => PyFloat.finite 0

/-! ## `cnfans_scraper.pick_hoodie_name` -/

/-- The fixed keyword tuple of `pick_hoodie_name`. -/
def hoodieKeywords : List (List Char) :=
  ["hoodie".toList, "sudadera".toList, "sweatshirt".toList,
   "pullover".toList, "hood".toList]

/-- `any(k in name.lower() for k in keywords)`. -/
def hasHoodieKeyword (name : List Char) : Bool :=
  hoodieKeywords.any (fun k => containsSub k (name.map lowerA))

/-- First product whose stripped name is nonempty and contains a keyword. -/
def firstKwName : List String → Option String
  | [] => none
  | p :: r =>
      let name := pyStrip p.toList
      if name ≠ [] ∧ hasHoodieKeyword name then some (String.mk name)
      else firstKwName r

/-- First product with a nonempty stripped name. -/
def firstNonEmptyName : List String → Option String
  | [] => none
  | p :: r =>
      let name := pyStrip p.toList
      if name ≠ [] then some (String.mk name) else firstNonEmptyName r

/-- `cnfans_scraper.pick_hoodie_name` over the product-name list: the first
keyword hit, else the first nonempty name, else the placeholder. -/
def pick_hoodie_name (products : List String) : String :=
  if products = [] then "sin producto"
  else ((firstKwName products).orElse
    (fun _ => firstNonEmptyName products)).getD "sin producto"

/-- A stripped product name. -/
def stripName (p : String) : String := String.mk (pyStrip p.toList)

/-- Label derivation as worded by the spec: scan candidate names in source
order and return the first whose lowercase form contains a keyword; if none
match, the first nonempty name; if no names exist, the fixed placeholder. -/
def specLabel (products : List String) : String :=
  (((products.map stripName).find?
      (fun n => decide (n ≠ "") && hasHoodieKeyword n.toList)).orElse
    (fun _ => (products.map stripName).find? (fun n => decide (n ≠ "")))).getD
    "sin producto"

/-! ## `cnfans_scraper`: expense rows and monthly aggregation -/

/-- The fields of a scraped cnfans order that feed the accounting CSV. -/
structure Order where
  order_no : String
  create_time : String
  total_product_amount : String
  domestic_shipping : String
  value_added_services : String
  total_amount : String
  actual_payment : String
  shipping_cost : String
  products : List String
  deriving DecidableEq, Repr

/-- `cnfans_scraper.compute_paid_amount`: prefer the actual payment, then the
total amount, else the sum of the four component amounts. -/
def compute_paid_amount (o : Order) : ℚ :=
  if o.actual_payment ≠ "" then parse_money o.actual_payment
  else if o.total_amount ≠ "" then parse_money o.total_amount
  else
    parse_money o.total_product_amount + parse_money o.domestic_shipping
      + parse_money o.value_added_services + parse_money o.shipping_cost

/-- A detail row of the cnfans expense CSV (supplier and payment method are
the fixed constants `Cnfans` / `tarjeta`). -/
structure DRow where
  fecha : MDate
  importe : ℚ
  concepto : String
  pedido : String
  deriving DecidableEq, Repr

/-- A row of the final cnfans stream: detail row or monthly-total row. -/
inductive CRow where
  | detail (r : DRow)
  | total (importe : ℚ) (concepto : String)
  deriving DecidableEq, Repr

/-- Strict lexicographic order on dates (`datetime.date` comparison). -/
def dateLt (a b : MDate) : Bool :=
  a.year < b.year ∨ (a.year = b.year ∧
    (a.month < b.month ∨ (a.month = b.month ∧ a.day < b.day)))

/-- Stable insertion: a row moves left past strictly later rows only. -/
def insertByDate (x : DRow) : List DRow → List DRow
  | [] => [x]
  | y :: ys => if dateLt y.fecha x.fecha then y :: insertByDate x ys
               else x :: y :: ys

/-- Stable ascending sort by date (`rows.sort(key=lambda r: date)`). -/
def sortByDate : List DRow → List DRow
  | [] => []
  | x :: xs => insertByDate x (sortByDate xs)

/-- The `(year, month)` grouping key of a row. -/
def ymKey (d : MDate) : ℕ × ℕ := (d.year, d.month)

/-- Two-digit month rendering (`f"{m:02d}"` for the values that occur). -/
def pad2 (m : ℕ) : String := if m < 10 then "0" ++ toString m else toString m

/-- The concept text of a monthly-total row (`f"TOTAL MES {y}-{m:02d}"`). -/
def mesLabel (k : ℕ × ℕ) : String :=
  "TOTAL MES " ++ toString k.1 ++ "-" ++ pad2 k.2

/-- The month-interleaving loop of `build_expense_rows` (lines 451-493):
the first argument is the open month, the second its running sum. -/
def aggGo : Option (ℕ × ℕ) → ℚ → List DRow → List CRow
  | none, _, [] => []
  | some k, acc, [] => [CRow.total acc (mesLabel k)]
  | none, acc, r :: rs =>
      CRow.detail r :: aggGo (some (ymKey r.fecha)) (acc + r.importe) rs
  | some c, acc, r :: rs =>
      if ymKey r.fecha = c then
        CRow.detail r :: aggGo (some c) (acc + r.importe) rs
      else
        CRow.total acc (mesLabel c) :: CRow.detail r ::
          aggGo (some (ymKey r.fecha)) r.importe rs

/-- The aggregation pass over date-sorted rows. -/
def aggregate (rows : List DRow) : List CRow := aggGo none 0 rows

/-- Exact sum of the amounts of a list of detail rows. -/
def sumImporte (g : List DRow) : ℚ := (g.map DRow.importe).sum

/-- One order becomes one detail row; orders without a parseable date are
skipped (`continue`). -/
def rowOf (o : Order) : Option DRow :=
  match parse_create_time_to_date o.create_time with
  | none => none
  | some d =>
      some ⟨d, compute_paid_amount o, "pedido " ++ pick_hoodie_name o.products,
            o.order_no⟩

/-- `cnfans_scraper.build_expense_rows`: normalise, sort by date, interleave
monthly totals. -/
def build_expense_rows (orders : List Order) : List CRow :=
  aggregate (sortByDate (orders.filterMap rowOf))

/-! ## `aliexpress_scraper.main`: row stream construction

The DOM extraction (BeautifulSoup) is the external collaborator; an `AliItem`
carries the three raw texts it hands over for one order block. -/

/-- Raw fields of one `order-item` block: header text, product-name span text
(when present), price span text (when present). -/
structure AliItem where
  header : String
  nombre : Option String
  precio : Option String
  deriving DecidableEq, Repr

/-- A row of the aliexpress CSV stream, one constructor per
`writer.writerow` call shape. -/
inductive ARow where
  | detail (fecha proveedor : String) (importe : PyFloat)
      (concepto referencia metodo : String)
  | blank
  | resumenHeader
  | monthTotal (mesAnio : String) (importe : PyFloat)
  deriving DecidableEq, Repr

/-- IEEE-style addition on the float model (exact on finite values). -/
def pyAdd : PyFloat → PyFloat → PyFloat
  | PyFloat.nan, _ => PyFloat.nan
  | _, PyFloat.nan => PyFloat.nan
  | PyFloat.pinf, PyFloat.ninf => PyFloat.nan
  | PyFloat.ninf, PyFloat.pinf => PyFloat.nan
  | PyFloat.pinf, _ => PyFloat.pinf
  | _, PyFloat.pinf => PyFloat.pinf
  | PyFloat.ninf, _ => PyFloat.ninf
  | _, PyFloat.ninf => PyFloat.ninf
  | PyFloat.finite a, PyFloat.finite b => PyFloat.finite (a + b)

/-- `totales_por_mes[mes] += importe` on an insertion-ordered dict. -/
def addTotal (k : String) (v : PyFloat) :
    List (String × PyFloat) → List (String × PyFloat)
  | [] => [(k, pyAdd (PyFloat.finite 0) v)]
  | (k2, x) :: r =>
      if k2 = k then (k2, pyAdd x v) :: r else (k2, x) :: addTotal k v r

/-- Remove every occurrence of the literal `Nº de pedido:`. -/
def removePedidoLabel : List Char → List Char
  | 'N' :: 'º' :: ' ' :: 'd' :: 'e' :: ' ' :: 'p' :: 'e' :: 'd' :: 'i' :: 'd'
      :: 'o' :: ':' :: r => removePedidoLabel r
  | c :: r => c :: removePedidoLabel r
  | [] => []

/-- Remove every occurrence of the literal `Copiar`. -/
def removeCopiar : List Char → List Char
  | 'C' :: 'o' :: 'p' :: 'i' :: 'a' :: 'r' :: r => removeCopiar r
  | c :: r => c :: removeCopiar r
  | [] => []

/-- The concept label of an aliexpress row: `Pedido: <name>` truncated to 80
characters with a `...` marker, or the fixed placeholder. -/
def aliConcepto (nombre : Option String) : String :=
  match nombre with
  | some nm =>
      let c := "Pedido: " ++ nm
      if 80 < c.length then String.mk (c.toList.take 77) ++ "..." else c
  | none => "Pedido AliExpress (Sin nombre detectado)"

/-- Process one order block: split the header on `|`, parse date and price,
build the detail row and the grouping key.  `none` models the uncaught
`strptime` exception. -/
def aliProcessItem (it : AliItem) : Option (ARow × String × PyFloat) :=
  let parts := splitOnC '|' it.header.toList
  let fechaBruta := String.mk (parts.getD 0 [])
  let pedidoBruto := (parts.getD 1 [])
  match procesar_fecha fechaBruta with
  | none => none
  | some (fstr, mesAnio) =>
      let ref := String.mk (pyStrip (removeCopiar (removePedidoLabel pedidoBruto)))
      let imp :=
        match it.precio with
        | some t => limpiar_precio t
        | none => PyFloat.finite 0
      some (ARow.detail fstr "AliExpress Europa S.L." imp (aliConcepto it.nombre)
              ref "Tarjeta", mesAnio, imp)

/-- The item loop of `main`: accumulate detail rows and the monthly totals. -/
def aliMainGo : List AliItem → List ARow → List (String × PyFloat) →
    Option (List ARow × List (String × PyFloat))
  | [], rows, tot => some (rows, tot)
  | it :: r, rows, tot =>
      match aliProcessItem it with
      | none => none
      | some (row, mes, imp) =>
          aliMainGo r (rows ++ [row]) (addTotal mes imp tot)

/-- The row stream written by `aliexpress_scraper.main`: all detail rows in
input order, then a blank row, the `RESUMEN MENSUAL` header, and one total
row per month in first-appearance order. -/
def aliexpressMain (items : List AliItem) : Option (List ARow) :=
  match aliMainGo items [] [] with
  | none => none
  | some (rows, tot) =>
      some (rows ++ [ARow.blank, ARow.resumenHeader]
              ++ tot.map (fun p => ARow.monthTotal p.1 p.2))

/-- The grouping key of a monthly-total row (observer used in statements). -/
def rowMes : ARow → Option String
  | ARow.monthTotal m _ => some m
  | _ => none

/-- The date string of a detail row (observer used in statements). -/
def rowFecha : ARow → Option String
  | ARow.detail f _ _ _ _ _ => some f
  | _ => none

/-- Two concrete order blocks, one in November and one in December 2025. -/
def aliTwoMonths : List AliItem :=
  [⟨"Pedido efectuado el: 5 nov, 2025", some "camiseta", some "10"⟩,
   ⟨"Pedido efectuado el: 3 dic, 2025", some "gorra", some "7"⟩]

/-! ## `csv_to_pdf`: splitting a ledger into parts

`_dividir_y_generar_pdfs` and the inline copy in `dividir_gastos_en_pdfs`
share the same partitioning core, modelled here; the PDF rendering around it
is the external consumer. -/

/-- One CSV data row (a list of cell strings). -/
abbrev Fila : Type := List String

/-- `extraer_importe`: column 2, commas to dots, stripped, read with `float`;
any failure (and the out-of-domain nonfinite spellings) degrades to `0.0`. -/
def extraer_importe (fila : Fila) : ℚ :=
  match List.get? fila 2 with
  | none => 0
  | some s =>
      match pyFloat (pyStrip ((s.toList).map (fun c => if c = ',' then '.' else c))) with
      | some (PyFloat.finite q) => q
      | _ => 0

/-- Total amount of a row list. -/
def filasTotal (filas : List Fila) : ℚ := (filas.map extraer_importe).sum

/-- The cumulative-amount splitting loop: close the current part when adding
the next row would exceed the per-part budget, while fewer than
`numPartes - 1` parts are closed. -/
def dividirImporteGo (limite : ℚ) (numPartes : ℕ) (partes : List (List Fila))
    (parteActual : List Fila) (acum : ℚ) : List Fila → List (List Fila)
  | [] => if parteActual ≠ [] then partes ++ [parteActual] else partes
  | fila :: rest =>
      let imp := extraer_importe fila
      if limite < acum + imp ∧ parteActual ≠ [] ∧ partes.length < numPartes - 1 then
        dividirImporteGo limite numPartes (partes ++ [parteActual]) [fila] imp rest
      else
        dividirImporteGo limite numPartes partes (parteActual ++ [fila])
          (acum + imp) rest

/-- `metodo == 'importe'`: split by cumulative amount. -/
def dividirPorImporte (filas : List Fila) (numPartes : ℕ) : List (List Fila) :=
  dividirImporteGo (filasTotal filas / numPartes) numPartes [] [] 0 filas

/-- `metodo == 'registros'`: split by row count, the last part taking the
remainder. -/
def dividirPorRegistros (filas : List Fila) (numPartes : ℕ) : List (List Fila) :=
  let k := filas.length / numPartes
  (List.range numPartes).map (fun i =>
    if i = numPartes - 1 then filas.drop (i * k) else (filas.drop (i * k)).take k)

/-- The partitioning core shared by `_dividir_y_generar_pdfs` and
`dividir_gastos_en_pdfs`. -/
def dividirEnPartes (filas : List Fila) (numPartes : ℕ) (metodo : String) :
    List (List Fila) :=
  if metodo = "importe" then dividirPorImporte filas numPartes
  else dividirPorRegistros filas numPartes

end Mitzori

namespace Mitzori

example : pyFloat "15.92".toList = some (PyFloat.finite (mkRat 1592 100)) := by decide
example : pyFloat "1.234".toList = some (PyFloat.finite (mkRat 1234 1000)) := by decide
example : pyFloat "1.23.45".toList = none := by decide
example : pyFloat "inf".toList = some PyFloat.pinf := by decide
example : pyFloat "-Infinity".toList = some PyFloat.ninf := by decide
example : pyFloat "".toList = none := by decide
example : pyFloat "5.".toList = some (PyFloat.finite 5) := by decide
example : pyFloat "-1234.56".toList = some (PyFloat.finite (mkRat (-123456) 100)) := by decide
example : pyFloat "1e2".toList = some (PyFloat.finite 100) := by decide

example : parse_money "15,92" = mkRat 1592 100 := by decide
example : parse_money "1.234" = mkRat 1234 1000 := by decide
example : parse_money "1,234" = 1234 := by decide
example : parse_money "€1,234.56" = mkRat 123456 100 := by decide
example : parse_money "1.234,56 €" = mkRat 123456 100 := by decide
example : parse_money "" = 0 := by decide
example : parse_money "abc" = 0 := by decide
example : parse_money "x -12,50" = mkRat (-1250) 100 := by decide

example : parse_create_time_to_date "03/04/2025" = some ⟨2025, 4, 3⟩ := by decide
example : parse_create_time_to_date "Create Time: 2025-12-09 14:30" = some ⟨2025, 12, 9⟩ := by decide
example : parse_create_time_to_date "09-12-2025" = some ⟨2025, 12, 9⟩ := by decide
example : parse_create_time_to_date "" = none := by decide
example : parse_create_time_to_date "31/02/2025" = none := by decide
example : parse_create_time_to_date "12/09/2025 23:59:01" = some ⟨2025, 9, 12⟩ := by decide

example : procesar_fecha "Pedido efectuado el: 26 dic, 2025" =
    some ("26/12/2025", "12-2025") := by decide
example : procesar_fecha "no date here" =
    some ("Fecha desconocida", "Desconocido") := by decide
example : procesar_fecha "26 xyz, 2025" = some ("26/01/2025", "01-2025") := by decide
example : procesar_fecha "99 dic, 2025" = none := by decide

example : limpiar_precio "Total: US $ 15,92" = PyFloat.finite (mkRat 1592 100) := by decide
example : limpiar_precio "1.234,56 €" = PyFloat.finite 0 := by decide
example : limpiar_precio "inf" = PyFloat.pinf := by decide
example : limpiar_precio "abc" = PyFloat.finite 0 := by decide
example : limpiar_precio "8,99" = PyFloat.finite (mkRat 899 100) := by decide

example : pick_hoodie_name [] = "sin producto" := by decide
example : pick_hoodie_name ["red Hoodie XL", "socks"] = "red Hoodie XL" := by decide
example : pick_hoodie_name ["  ", "socks"] = "socks" := by decide
example : pick_hoodie_name ["", " "] = "sin producto" := by decide
example : pick_hoodie_name ["socks", "Sudadera azul"] = "Sudadera azul" := by decide

example :
    aggregate [⟨⟨2025, 11, 15⟩, 10, "a", "1"⟩, ⟨⟨2025, 11, 20⟩, 5, "b", "2"⟩,
               ⟨⟨2025, 12, 1⟩, 7, "c", "3"⟩] =
      [CRow.detail ⟨⟨2025, 11, 15⟩, 10, "a", "1"⟩,
       CRow.detail ⟨⟨2025, 11, 20⟩, 5, "b", "2"⟩,
       CRow.total 15 "TOTAL MES 2025-11",
       CRow.detail ⟨⟨2025, 12, 1⟩, 7, "c", "3"⟩,
       CRow.total 7 "TOTAL MES 2025-12"] := by
  simp [aggregate, aggGo, ymKey, mesLabel, pad2]
  norm_num
  exact ⟨rfl, rfl⟩

example : dividirEnPartes [["a", "b", "10"], ["c", "d", "20"], ["e", "f", "30"]] 2 "registros" =
    [[["a", "b", "10"]], [["c", "d", "20"], ["e", "f", "30"]]] := by decide

/-! ## General lemmas -/

lemma takeWhile_prefix_all {p : Char → Bool} (xs : List Char) (y : Char)
    (rest : List Char) (hxs : ∀ x ∈ xs, p x = true) (hy : p y = false) :
    (xs ++ y :: rest).takeWhile p = xs := by
  induction xs with
  | nil => simp [List.takeWhile_cons, hy]
  | cons a l ih =>
      have ha := hxs a (List.mem_cons_self a l)
      simp [List.takeWhile_cons, ha,
        ih (fun x hx => hxs x (List.mem_cons_of_mem a hx))]

lemma dropWhile_prefix_all {p : Char → Bool} (xs : List Char) (y : Char)
    (rest : List Char) (hxs : ∀ x ∈ xs, p x = true) (hy : p y = false) :
    (xs ++ y :: rest).dropWhile p = y :: rest := by
  induction xs with
  | nil => simp [List.dropWhile_cons, hy]
  | cons a l ih =>
      have ha := hxs a (List.mem_cons_self a l)
      simp [List.dropWhile_cons, ha,
        ih (fun x hx => hxs x (List.mem_cons_of_mem a hx))]

lemma removeTotalLabel_sublist (l : List Char) :
    (removeTotalLabel l).Sublist l := by
  induction l using removeTotalLabel.induct with
  | case1 r ih =>
      rw [removeTotalLabel]
      exact ih.trans (List.IsSuffix.sublist ⟨['T', 'o', 't', 'a', 'l', ':'], rfl⟩)
  | case2 c r hne ih =>
      rw [removeTotalLabel]
      exact ih.cons₂ c
      all_goals exact hne
  | case3 => simp [removeTotalLabel]

lemma pyStrip_subset {c : Char} {l : List Char} (h : c ∈ pyStrip l) : c ∈ l := by
  unfold pyStrip at h
  rw [List.mem_reverse] at h
  have h2 := (List.dropWhile_sublist (l := (l.dropWhile isWs).reverse) isWs).subset h
  rw [List.mem_reverse] at h2
  exact (List.dropWhile_sublist isWs).subset h2

lemma symbolCleaned_subset {c : Char} {s : String}
    (h : c ∈ symbolCleaned s) : c ∈ s.toList := by
  unfold symbolCleaned at h
  exact (removeTotalLabel_sublist s.toList).subset
    (pyStrip_subset (List.mem_of_mem_filter h))

/-- A successful digit-run parse contains no dot. -/
lemma expDigits_no_dot {eneg : Bool} {r2 : List Char} {e : ℤ}
    (h : expDigits eneg r2 = some e) : '.' ∉ r2 := by
  intro hm
  unfold expDigits at h
  split at h
  · rename_i hcond
    have := List.all_eq_true.mp hcond.2 '.' hm
    exact absurd this (by decide)
  · exact Option.noConfusion h

/-- A successful sign-and-digits parse contains no dot. -/
lemma parseExpSign_no_dot {r : List Char} {e : ℤ}
    (h : parseExpSign r = some e) : '.' ∉ r := by
  intro hcr
  cases r with
  | nil => simp at hcr
  | cons a t =>
      rw [parseExpSign] at h
      by_cases ha1 : a = '+'
      · rw [ha1] at h hcr
        rw [if_pos rfl] at h
        rcases List.mem_cons.mp hcr with h1 | h1
        · exact absurd h1 (by decide)
        · exact expDigits_no_dot h h1
      · by_cases ha2 : a = '-'
        · rw [ha2] at h hcr
          rw [if_neg (show ('-' : Char) ≠ '+' by decide), if_pos rfl] at h
          rcases List.mem_cons.mp hcr with h1 | h1
          · exact absurd h1 (by decide)
          · exact expDigits_no_dot h h1
        · rw [if_neg ha1, if_neg ha2] at h
          exact expDigits_no_dot h hcr

/-- A successful exponent parse sees only `e`, signs and digits: never a dot. -/
lemma parseExpAll_no_dot {l : List Char} {e : ℤ}
    (h : parseExpAll l = some e) : '.' ∉ l := by
  intro hmem
  cases l with
  | nil => simp at hmem
  | cons c r =>
      rw [parseExpAll] at h
      split at h
      · rename_i hc
        have hcr : '.' ∈ r := by
          rcases List.mem_cons.mp hmem with h1 | h1
          · rcases hc with h2 | h2 <;> rw [h2] at h1 <;> exact absurd h1 (by decide)
          · exact h1
        exact parseExpSign_no_dot h hcr
      · exact Option.noConfusion h

/-- Digit-prefix splitting never loses dots: every dot of the input survives
into the remainder of the `takeWhile Char.isDigit` split. -/
lemma count_dot_dropWhile (l : List Char) :
    l.count '.' = (l.dropWhile Char.isDigit).count '.' := by
  conv_lhs => rw [← List.takeWhile_append_dropWhile (p := Char.isDigit) (l := l)]
  rw [List.count_append]
  have h0 : (l.takeWhile Char.isDigit).count '.' = 0 := by
    rw [List.count_eq_zero]
    intro hmem
    exact absurd (List.mem_takeWhile_imp hmem) (by decide)
  rw [h0, Nat.zero_add]

/-- A mantissa consumes at most one dot. -/
lemma parseMantissa_count {l i f rest : List Char}
    (h : parseMantissa l = some (i, f, rest)) :
    l.count '.' ≤ 1 + rest.count '.' := by
  have hsplit := count_dot_dropWhile l
  simp only [parseMantissa] at h
  cases hd : l.dropWhile Char.isDigit with
  | nil =>
      rw [hd] at h hsplit
      rw [parseMantissaTail] at h
      split at h
      · exact Option.noConfusion h
      · simp only [Option.some.injEq, Prod.mk.injEq] at h
        obtain ⟨h1, h2, h3⟩ := h
        subst h3
        simp at hsplit
        omega
  | cons c r2 =>
      rw [hd] at h hsplit
      rw [parseMantissaTail] at h
      split at h
      · rename_i hc
        subst hc
        split at h
        · exact Option.noConfusion h
        · simp only [Option.some.injEq, Prod.mk.injEq] at h
          obtain ⟨h1, h2, h3⟩ := h
          subst h3
          simp [List.count_cons] at hsplit
          have hr2 := count_dot_dropWhile r2
          omega
      · rename_i hc
        split at h
        · exact Option.noConfusion h
        · simp only [Option.some.injEq, Prod.mk.injEq] at h
          obtain ⟨h1, h2, h3⟩ := h
          subst h3
          rw [hsplit]
          omega

/-- `float` accepts at most one dot in a finite literal. -/
lemma pyFloatBody_finite_dots {neg : Bool} {r : List Char} {q : ℚ}
    (h : pyFloatBody neg r = some (PyFloat.finite q)) : r.count '.' ≤ 1 := by
  unfold pyFloatBody at h
  split at h
  · cases neg <;> simp at h
  · split at h
    · simp at h
    · split at h
      · exact Option.noConfusion h
      · rename_i i f rest hm
        split at h
        · exact Option.noConfusion h
        · rename_i e he
          have hc := parseMantissa_count hm
          have hr0 : rest.count '.' = 0 :=
            List.count_eq_zero.mpr (parseExpAll_no_dot he)
          omega

/-- The special spellings contain no dot. -/
lemma pyFloatBody_special_no_dot {neg : Bool} {r : List Char} {v : PyFloat}
    (h : pyFloatBody neg r = some v) (hd : '.' ∈ r) :
    ∃ q, v = PyFloat.finite q := by
  have hlow : '.' ∈ r.map lowerA := List.mem_map.mpr ⟨'.', hd, by decide⟩
  unfold pyFloatBody at h
  split at h
  · rename_i hcond
    rcases hcond with hh | hh <;> rw [hh] at hlow <;> exact absurd hlow (by decide)
  · split at h
    · rename_i hcond
      rw [hcond] at hlow
      exact absurd hlow (by decide)
    · split at h
      · exact Option.noConfusion h
      · split at h
        · exact Option.noConfusion h
        · injection h with h1
          exact ⟨_, h1.symm⟩

/-- Without a digit there is no mantissa. -/
lemma parseMantissa_no_digits {l : List Char}
    (h : ∀ c ∈ l, c.isDigit = false) : parseMantissa l = none := by
  have htw : l.takeWhile Char.isDigit = [] := by
    cases l with
    | nil => rfl
    | cons a t =>
        rw [List.takeWhile_cons]
        simp [h a (List.mem_cons_self a t)]
  have hdw : l.dropWhile Char.isDigit = l := by
    cases l with
    | nil => rfl
    | cons a t =>
        rw [List.dropWhile_cons]
        simp [h a (List.mem_cons_self a t)]
  simp only [parseMantissa, hdw, htw]
  cases l with
  | nil => rfl
  | cons c r2 =>
      rw [parseMantissaTail]
      by_cases hc : c = '.'
      · rw [if_pos hc]
        have hfr : r2.takeWhile Char.isDigit = [] := by
          cases r2 with
          | nil => rfl
          | cons b t2 =>
              rw [List.takeWhile_cons]
              simp [h b (by simp)]
        simp [hfr]
      · simp [hc]

/-- On digit-free input, `float` yields nothing or a special value. -/
lemma pyFloat_no_digits {l : List Char} (h : ∀ c ∈ l, c.isDigit = false) :
    pyFloat l = none ∨ pyFloat l = some PyFloat.pinf
      ∨ pyFloat l = some PyFloat.ninf ∨ pyFloat l = some PyFloat.nan := by
  have hbody : ∀ (neg : Bool) (r : List Char), (∀ c ∈ r, c.isDigit = false) →
      pyFloatBody neg r = none ∨ pyFloatBody neg r = some PyFloat.pinf
        ∨ pyFloatBody neg r = some PyFloat.ninf
        ∨ pyFloatBody neg r = some PyFloat.nan := by
    intro neg r hr
    unfold pyFloatBody
    split
    · cases neg
      · right; left; rfl
      · right; right; left; rfl
    · split
      · right; right; right; rfl
      · rw [parseMantissa_no_digits hr]
        left; rfl
  cases l with
  | nil => left; rfl
  | cons c r =>
      have hr : ∀ x ∈ r, x.isDigit = false :=
        fun x hx => h x (List.mem_cons_of_mem c hx)
      rw [pyFloat]
      by_cases h1 : c = '+'
      · rw [if_pos h1]; exact hbody false r hr
      · rw [if_neg h1]
        by_cases h2 : c = '-'
        · rw [if_pos h2]; exact hbody true r hr
        · rw [if_neg h2]; exact hbody false (c :: r) h

/-- The money-token pattern requires a digit. -/
lemma findMoneyToken_none {l : List Char}
    (h : ∀ c ∈ l, c.isDigit = false) : findMoneyToken l = none := by
  induction l with
  | nil => rfl
  | cons c r ih =>
      have hc : c.isDigit = false := h c (List.mem_cons_self c r)
      have hr : ∀ x ∈ r, x.isDigit = false :=
        fun x hx => h x (List.mem_cons_of_mem c hx)
      rw [findMoneyToken]
      rw [if_neg (by simp [hc])]
      rw [if_neg ?hcond]
      · exact ih hr
      case hcond =>
        rintro ⟨h1, h2⟩
        cases r with
        | nil => simp [headDigit] at h2
        | cons d r2 =>
            rw [headDigit] at h2
            exact absurd h2 (by simp [hr d (List.mem_cons_self d r2)])

/-- Character-level effect of the comma-to-dot map on digits. -/
lemma cleanAli_no_digits {s : String} (h : ∀ c ∈ s.toList, c.isDigit = false) :
    ∀ c ∈ cleanAli s, c.isDigit = false := by
  intro c hc
  unfold cleanAli at hc
  obtain ⟨a, ha, hfa⟩ := List.mem_map.mp hc
  have hsa : a.isDigit = false := h a (symbolCleaned_subset ha)
  by_cases ha2 : a = ','
  · rw [if_pos ha2] at hfa
    rw [← hfa]
    decide
  · rw [if_neg ha2] at hfa
    rw [← hfa]
    exact hsa

/-- Two or more dots make `float` fail. -/
lemma pyFloat_two_dots {l : List Char} (h2 : 2 ≤ l.count '.') :
    pyFloat l = none := by
  have hbody : ∀ (neg : Bool) (r : List Char), 2 ≤ r.count '.' →
      pyFloatBody neg r = none := by
    intro neg r hr2
    cases hb : pyFloatBody neg r with
    | none => rfl
    | some v =>
        exfalso
        have hdot : '.' ∈ r := List.count_pos_iff.mp (by omega)
        obtain ⟨q, hq⟩ := pyFloatBody_special_no_dot hb hdot
        subst hq
        have := pyFloatBody_finite_dots hb
        omega
  cases l with
  | nil => rfl
  | cons c r =>
      rw [pyFloat]
      have hcr : ∀ c2 : Char, c2 ≠ '.' → (c :: r).count '.' = r.count '.' + 0 → True := by
        intro _ _ _; trivial
      by_cases h1 : c = '+'
      · rw [if_pos h1]
        apply hbody
        rw [List.count_cons] at h2
        subst h1
        simpa using h2
      · rw [if_neg h1]
        by_cases hm : c = '-'
        · rw [if_pos hm]
          apply hbody
          rw [List.count_cons] at h2
          subst hm
          simpa using h2
        · rw [if_neg hm]
          exact hbody false (c :: r) h2

/-! ## Claim C1: single-separator heuristic -/

/-- C1, counterexample.  The claim says a lone separator class is stripped as
a thousands separator when the final group does not have exactly 2 digits, so
that `"1.234"` parses to `1234`.  Both amount parsers instead keep a lone dot
as a decimal point: `"1.234"` parses to `1.234`. -/
theorem parse_money_dot_group_counterexample :
    parse_money "1.234" = mkRat 1234 1000
    ∧ limpiar_precio "1.234" = PyFloat.finite (mkRat 1234 1000)
    ∧ (mkRat 1234 1000 : ℚ) ≠ 1234 := by
  refine ⟨by decide, by decide, by decide⟩

/-- C1, amended.  For a token in which only commas occur, the cnfans
`parse_money` applies the 2-digit-final-group heuristic (comma decimal if the
last group has exactly 2 digits, otherwise commas stripped); for a token in
which only dots occur, the token is handed to `float` unchanged, so the dot
is always a decimal point and never stripped.  The aliexpress
`limpiar_precio` applies no group-length heuristic at all: whenever its
symbol-cleaned text has no dot, the text it hands to `float` is exactly the
comma-as-decimal reading `commaAsDecimal`, regardless of the final group's
length; and whenever the cleaned text has no comma, the text reaches `float`
unchanged (dots always decimal). -/
theorem parse_money_single_separator :
    (∀ (s : String) (num : List Char), findMoneyToken s.toList = some num →
      (',' ∈ num → '.' ∉ num →
        parse_money s =
          floatOrZero (if ((splitOnC ',' num).getLastD []).length = 2
            then commaAsDecimal num else stripCommas num))
      ∧ ('.' ∈ num → ',' ∉ num → parse_money s = floatOrZero num))
    ∧ (∀ s : String,
        ('.' ∉ symbolCleaned s →
          limpiar_precio s = pyFloatOrZero (commaAsDecimal (symbolCleaned s)))
        ∧ (',' ∉ symbolCleaned s →
          limpiar_precio s = pyFloatOrZero (symbolCleaned s))) := by
  constructor
  · intro s num h
    have hs : ¬ (s = "") := by
      intro he
      rw [he] at h
      exact Option.noConfusion h
    constructor
    · intro hc hd
      rw [parse_money, if_neg hs, h]
      simp only [moneyTransform]
      rw [if_neg (by rintro ⟨_, h2⟩; exact hd h2), if_pos hc]
    · intro hd hc
      rw [parse_money, if_neg hs, h]
      simp only [moneyTransform]
      rw [if_neg (by rintro ⟨h1, _⟩; exact hc h1), if_neg hc]
      have : stripCommas num = num := by
        rw [stripCommas, List.filter_eq_self]
        intro a ha
        simp only [decide_eq_true_eq]
        intro he
        rw [he] at ha
        exact hc ha
      rw [this]
  · intro s
    constructor
    · intro hd
      have hf : (symbolCleaned s).filter (fun c => c ≠ '.') = symbolCleaned s := by
        rw [List.filter_eq_self]
        intro a ha
        simp only [decide_eq_true_eq]
        intro he
        rw [he] at ha
        exact hd ha
      show pyFloatOrZero (cleanAli s) = pyFloatOrZero (commaAsDecimal (symbolCleaned s))
      rw [commaAsDecimal, hf]
      rfl
    · intro hc
      have hm : (symbolCleaned s).map (fun c => if c = ',' then '.' else c)
          = symbolCleaned s := by
        conv_rhs => rw [← List.map_id (symbolCleaned s)]
        apply List.map_congr_left
        intro a ha
        have : ¬ (a = ',') := by
          intro he
          rw [he] at ha
          exact hc ha
        rw [if_neg this]
        rfl
      show pyFloatOrZero (cleanAli s) = pyFloatOrZero (symbolCleaned s)
      rw [cleanAli, hm]

/-- C1, witness: in `parse_money`, `"15,92"` takes the comma-decimal branch
and yields `15.92` while `"1,234"` takes the thousands branch and yields
`1234`; `limpiar_precio` applies no such heuristic, reading both commas as
decimal points (`"1,234"` yields `1.234`). -/
theorem parse_money_single_separator_witness :
    findMoneyToken "15,92".toList = some "15,92".toList
    ∧ parse_money "15,92" = mkRat 1592 100
    ∧ parse_money "1,234" = 1234
    ∧ limpiar_precio "1,234" = PyFloat.finite (mkRat 1234 1000)
    ∧ limpiar_precio "15,92" = PyFloat.finite (mkRat 1592 100) := by
  refine ⟨by decide, ?_, ?_, ?_, ?_⟩
  · have h := (parse_money_single_separator.1 "15,92" "15,92".toList (by decide)).1
      (by decide) (by decide)
    exact h.trans (by decide)
  · have h := (parse_money_single_separator.1 "1,234" "1,234".toList (by decide)).1
      (by decide) (by decide)
    exact h.trans (by decide)
  · have h := (parse_money_single_separator.2 "1,234").1 (by decide)
    exact h.trans (by decide)
  · have h := (parse_money_single_separator.2 "15,92").1 (by decide)
    exact h.trans (by decide)

/-! ## Claim C3: both separators present -/

/-- C3, counterexample.  The claim says every amount string containing both a
comma and a dot parses with the rightmost separator as decimal, so both
`"1.234,56"` and `"1,234.56"` yield `1234.56`.  The aliexpress parser
`limpiar_precio` instead turns every comma into a dot and fails to `0.0` on
such strings. -/
theorem limpiar_precio_both_separators_counterexample :
    limpiar_precio "1.234,56 €" = PyFloat.finite 0
    ∧ limpiar_precio "€1,234.56" = PyFloat.finite 0
    ∧ PyFloat.finite 0 ≠ PyFloat.finite (mkRat 123456 100) := by
  refine ⟨by decide, by decide, by decide⟩

/-- C3, amended.  The rightmost-separator rule holds for the cnfans
`parse_money` (the separator occurring later is the decimal one, the other is
stripped); the aliexpress `limpiar_precio` instead returns `0.0` whenever its
cleaned text still contains both a comma and a dot. -/
theorem parse_money_both_separators :
    (∀ (s : String) (num : List Char), findMoneyToken s.toList = some num →
      ',' ∈ num → '.' ∈ num →
      parse_money s =
        floatOrZero (if rfindC num '.' < rfindC num ','
          then commaAsDecimal num else stripCommas num))
    ∧ (∀ s : String, ',' ∈ symbolCleaned s → '.' ∈ symbolCleaned s →
        limpiar_precio s = PyFloat.finite 0) := by
  constructor
  · intro s num h hc hd
    have hs : ¬ (s = "") := by
      intro he
      rw [he] at h
      exact Option.noConfusion h
    rw [parse_money, if_neg hs, h]
    simp only [moneyTransform]
    rw [if_pos ⟨hc, hd⟩]
  · intro s hc hd
    have h2 : 2 ≤ (cleanAli s).count '.' := by
      have heq : ∀ t : List Char,
          (t.map (fun c => if c = ',' then '.' else c)).count '.'
            = t.count ',' + t.count '.' := by
        intro t
        induction t with
        | nil => simp
        | cons a r ih =>
            by_cases ha : a = ','
            · subst ha
              simp [List.count_cons, ih]
              omega
            · by_cases hb : a = '.'
              · subst hb
                simp [List.count_cons, ih]
                omega
              · simp [List.count_cons, ha, hb, ih]
      rw [cleanAli, heq]
      have h1 : 1 ≤ (symbolCleaned s).count ',' :=
        List.count_pos_iff.mpr hc
      have h2 : 1 ≤ (symbolCleaned s).count '.' :=
        List.count_pos_iff.mpr hd
      omega
    rw [limpiar_precio, pyFloat_two_dots h2]

/-- C3, witness: the cnfans parser maps both `"1.234,56 €"` and `"€1,234.56"`
to `1234.56`, while the aliexpress parser maps both to `0`. -/
theorem parse_money_both_separators_witness :
    findMoneyToken "1.234,56 €".toList = some "1.234,56".toList
    ∧ parse_money "1.234,56 €" = mkRat 123456 100
    ∧ parse_money "€1,234.56" = mkRat 123456 100
    ∧ limpiar_precio "1.234,56 €" = PyFloat.finite 0 := by
  refine ⟨by decide, ?_, ?_, ?_⟩
  · have h := parse_money_both_separators.1 "1.234,56 €" "1.234,56".toList
      (by decide) (by decide) (by decide)
    exact h.trans (by decide)
  · have h := parse_money_both_separators.1 "€1,234.56" "1,234.56".toList
      (by decide) (by decide) (by decide)
    exact h.trans (by decide)
  · exact parse_money_both_separators.2 "1.234,56 €" (by decide) (by decide)

/-! ## Claim C7: digit-free amount strings -/

/-- C7, counterexample.  The claim says every digit-free amount string parses
to exactly zero in the amount parsers.  The aliexpress `limpiar_precio` feeds
the cleaned text to Python `float`, which accepts the digit-free spelling
`inf` and returns positive infinity, not zero. -/
theorem limpiar_precio_no_digits_counterexample :
    ("inf".toList.all (fun c => !c.isDigit)) = true
    ∧ limpiar_precio "inf" = PyFloat.pinf
    ∧ PyFloat.pinf ≠ PyFloat.finite 0 := by
  refine ⟨by decide, by decide, by decide⟩

/-- C7, amended.  On digit-free input `parse_money` always returns exactly
`0` (its token regex requires a digit).  `limpiar_precio` never raises
either, and is characterized exactly: it returns `0.0` whenever the cleaned
text does not read as a Python `float`, and whenever the cleaned text does
read as a `float` (the `inf`/`infinity`/`nan` spellings, optionally signed)
it returns that value, which is necessarily one of the nonzero specials
`+inf`, `-inf`, `nan`, since a digit-free literal has no mantissa digit. -/
theorem amount_parsers_no_digits (s : String)
    (h : ∀ c ∈ s.toList, c.isDigit = false) :
    parse_money s = 0
    ∧ (pyFloat (cleanAli s) = none → limpiar_precio s = PyFloat.finite 0)
    ∧ (∀ v, pyFloat (cleanAli s) = some v →
        limpiar_precio s = v
        ∧ (v = PyFloat.pinf ∨ v = PyFloat.ninf ∨ v = PyFloat.nan)) := by
  refine ⟨?_, ?_, ?_⟩
  · by_cases hs : s = ""
    · rw [parse_money, if_pos hs]
    · rw [parse_money, if_neg hs, findMoneyToken_none h]
  · intro h1
    rw [limpiar_precio, h1]
  · intro v hv
    refine ⟨by rw [limpiar_precio, hv], ?_⟩
    rcases pyFloat_no_digits (cleanAli_no_digits h) with h1 | h1 | h1 | h1
    · rw [hv] at h1
      exact Option.noConfusion h1
    · rw [hv] at h1
      exact Or.inl (Option.some.inj h1)
    · rw [hv] at h1
      exact Or.inr (Or.inl (Option.some.inj h1))
    · rw [hv] at h1
      exact Or.inr (Or.inr (Option.some.inj h1))

/-- C7, witness: the digit-free string `"€"` cleans to text that is not a
`float` literal and yields exactly `0` in both parsers, while the digit-free
string `"-inf"` cleans to a special spelling and yields negative infinity. -/
theorem amount_parsers_no_digits_witness :
    (∀ c ∈ ("€" : String).toList, c.isDigit = false)
    ∧ parse_money "€" = 0
    ∧ limpiar_precio "€" = PyFloat.finite 0
    ∧ limpiar_precio "-inf" = PyFloat.ninf := by
  refine ⟨by decide, (amount_parsers_no_digits "€" (by decide)).1,
    (amount_parsers_no_digits "€" (by decide)).2.1 (by decide),
    ((amount_parsers_no_digits "-inf" (by decide)).2.2 PyFloat.ninf (by decide)).1⟩

/-! ## Claim C6: ordered format list, day-first priority -/

lemma none_orElse {α : Type} (f : Unit → Option α) :
    (Option.none).orElse f = f () := rfl

lemma some_orElse {α : Type} (a : α) (f : Unit → Option α) :
    (Option.some a).orElse f = some a := rfl

lemma litChar_eq_some {c : Char} {l l2 : List Char}
    (h : litChar c l = some l2) : l = c :: l2 := by
  cases l with
  | nil => simp [litChar] at h
  | cons a t =>
      rw [litChar] at h
      split at h
      · rename_i ha
        injection h with h1
        rw [ha, h1]
      · exact Option.noConfusion h

lemma parseD_shape {l l1 : List Char} {v : ℕ}
    (hp : parseD l = some (v, l1)) :
    (∃ a, l = a :: l1) ∨ (∃ a b, l = a :: b :: l1) := by
  cases l with
  | nil => simp [parseD] at hp
  | cons a t =>
      cases t with
      | nil =>
          rw [parseD] at hp
          split at hp
          · injection hp with h1
            injection h1 with _ h2
            exact Or.inl ⟨a, by rw [← h2]⟩
          · exact Option.noConfusion hp
      | cons b r =>
          rw [parseD] at hp
          split at hp
          · injection hp with h1
            injection h1 with _ h2
            exact Or.inr ⟨a, b, by rw [h2]⟩
          · split at hp
            · injection hp with h1
              injection h1 with _ h2
              exact Or.inl ⟨a, by rw [h2]⟩
            · exact Option.noConfusion hp

/-- A string shaped like a successful `%d/...` parse can never start with the
four digits of a `%Y`. -/
lemma parseY_slash_none {l l2 : List Char} {v : ℕ}
    (hp : parseD l = some (v, '/' :: l2)) : parseY l = none := by
  rcases parseD_shape hp with ⟨a, ha⟩ | ⟨a, b, hab⟩
  · rw [ha]
    match l2 with
    | [] => rfl
    | [x] => rfl
    | x :: y :: r =>
        simp only [parseY]
        rw [if_neg]
        rintro ⟨_, h2, _⟩
        exact absurd h2 (by decide)
  · rw [hab]
    match l2 with
    | [] => rfl
    | x :: r =>
        simp only [parseY]
        rw [if_neg]
        rintro ⟨_, _, h3, _⟩
        exact absurd h3 (by decide)

/-- Any format starting `%d-` fails on input shaped `<day>/...`. -/
lemma runItems_D_dash_none {l l2 : List Char} {v : ℕ} (d0 m0 y0 : ℕ)
    (rest : List FmtItem) (hp : parseD l = some (v, '/' :: l2)) :
    runItems d0 m0 y0 (FmtItem.D :: FmtItem.lit '-' :: rest) l = none := by
  rw [runItems, hp, Option.some_bind]
  rw [runItems, litChar]
  rw [if_neg (by decide : ¬('/' : Char) = '-')]
  simp [Option.none_bind]

/-- Any format starting `%Y` fails on input shaped `<day>/...`. -/
lemma runItems_Y_none {l l2 : List Char} {v : ℕ} (d0 m0 y0 : ℕ)
    (rest : List FmtItem) (hp : parseD l = some (v, '/' :: l2)) :
    runItems d0 m0 y0 (FmtItem.Y :: rest) l = none := by
  rw [runItems, parseY_slash_none hp]
  simp [Option.none_bind]

/-- C6.  The candidate formats are tried in their fixed order and the first
complete match wins; the day-first slash format precedes the month-first one,
so whenever the cleaned input parses under `%d/%m/%Y`, that day-first reading
is the result of `parse_create_time_to_date` — regardless of whether the
month-first reading would also be valid. -/
theorem parse_create_time_day_first (raw : String) (dt : MDate)
    (hne : raw ≠ "")
    (h : strptimeDate fmtDMYslash (cleanCreateTime raw) = some dt) :
    parse_create_time_to_date raw = some dt := by
  have h0 := h
  rw [strptimeDate] at h
  obtain ⟨⟨d, m, y⟩, hrun, hok⟩ := Option.bind_eq_some.mp h
  rw [fmtDMYslash, runItems] at hrun
  obtain ⟨⟨v1, l1⟩, hp, hrun⟩ := Option.bind_eq_some.mp hrun
  rw [runItems] at hrun
  obtain ⟨l2, hlit1, hrun2⟩ := Option.bind_eq_some.mp hrun
  have hl1 : l1 = '/' :: l2 := litChar_eq_some hlit1
  rw [hl1] at hp
  have hdash : ∀ r0 : List FmtItem,
      strptimeDate (FmtItem.D :: FmtItem.lit '-' :: r0) (cleanCreateTime raw)
        = none := by
    intro r0
    rw [strptimeDate, runItems_D_dash_none 1 1 1900 r0 hp, Option.none_bind]
  have hiso : ∀ r0 : List FmtItem,
      strptimeDate (FmtItem.Y :: r0) (cleanCreateTime raw) = none := by
    intro r0
    rw [strptimeDate, runItems_Y_none 1 1 1900 r0 hp, Option.none_bind]
  rw [parse_create_time_to_date, if_neg hne, fmtsCnfans]
  rw [tryFmts, hdash, none_orElse]
  rw [tryFmts, hdash, none_orElse]
  rw [tryFmts, hdash, none_orElse]
  rw [tryFmts, hiso, none_orElse]
  rw [tryFmts, hiso, none_orElse]
  rw [tryFmts, hiso, none_orElse]
  rw [tryFmts]
  rw [show ([FmtItem.D, FmtItem.lit '/', FmtItem.M, FmtItem.lit '/', FmtItem.Y]
        : List FmtItem) = fmtDMYslash from rfl]
  rw [h0, some_orElse]

/-- C6, witness: `"03/04/2025"` is valid under both the day-first and the
month-first reading, and the parser returns the day-first date 3 April 2025. -/
theorem parse_create_time_day_first_witness :
    ("03/04/2025" : String) ≠ ""
    ∧ strptimeDate fmtDMYslash (cleanCreateTime "03/04/2025") = some ⟨2025, 4, 3⟩
    ∧ strptimeDate fmtMDYslash (cleanCreateTime "03/04/2025") = some ⟨2025, 3, 4⟩
    ∧ parse_create_time_to_date "03/04/2025" = some ⟨2025, 4, 3⟩ := by
  refine ⟨by decide, by decide, by decide, ?_⟩
  exact parse_create_time_day_first "03/04/2025" ⟨2025, 4, 3⟩ (by decide) (by decide)

/-! ## Claim C9: unknown month abbreviations default to January -/

lemma char_toNat_le_of_le {a b : Char} (h : a ≤ b) : a.toNat ≤ b.toNat := by
  rw [Char.le_def] at h
  exact h

lemma isDigit_toNat {c : Char} (h : c.isDigit = true) :
    48 ≤ c.toNat ∧ c.toNat ≤ 57 := by
  unfold Char.isDigit at h
  simp only [Bool.and_eq_true, decide_eq_true_eq, ge_iff_le] at h
  obtain ⟨h1, h2⟩ := h
  exact ⟨h1, h2⟩

lemma lowerA_digit {c : Char} (h : c.isDigit = true) : lowerA c = c := by
  rw [lowerA, if_neg]
  rintro ⟨h1, _⟩
  have e1 : 65 ≤ c.toNat := char_toNat_le_of_le h1
  have e2 := (isDigit_toNat h).2
  omega

lemma lowerA_lower {c : Char} (h : 'a' ≤ c) : lowerA c = c := by
  rw [lowerA, if_neg]
  rintro ⟨_, h2⟩
  have e1 : 97 ≤ c.toNat := char_toNat_le_of_le h
  have e2 : c.toNat ≤ 90 := char_toNat_le_of_le h2
  omega

lemma not_ws_of_lower {c : Char} (h : 'a' ≤ c) : isWs c = false := by
  cases hc : isWs c
  · rfl
  · unfold isWs at hc
    simp only [Bool.or_eq_true, decide_eq_true_eq] at hc
    have e1 : 97 ≤ c.toNat := char_toNat_le_of_le h
    rcases hc with h1 | h1 | h1 | h1 | h1 | h1 <;> rw [h1] at e1 <;>
      exact absurd e1 (by decide)

lemma not_ws_of_digit {c : Char} (h : c.isDigit = true) : isWs c = false := by
  cases hc : isWs c
  · rfl
  · obtain ⟨e1, _⟩ := isDigit_toNat h
    unfold isWs at hc
    simp only [Bool.or_eq_true, decide_eq_true_eq] at hc
    rcases hc with h1 | h1 | h1 | h1 | h1 | h1 <;> rw [h1] at e1 <;>
      exact absurd e1 (by decide)

/-- Extending a fully consumed day string with `/...` leaves the same parse. -/
lemma parseD_slash_extend {dia : List Char} {v : ℕ}
    (h : parseD dia = some (v, [])) (rr : List Char) :
    parseD (dia ++ '/' :: rr) = some (v, '/' :: rr) := by
  rcases dia with _ | ⟨a, _ | ⟨b, t⟩⟩
  · exact absurd h (by simp [parseD])
  · rw [parseD] at h
    split at h
    · rename_i hcond
      injection h with h1
      injection h1 with hv _
      rw [List.cons_append, List.nil_append, parseD]
      rw [if_neg ?hno, if_pos hcond, hv]
      case hno =>
        rintro (⟨_, h2⟩ | ⟨_, h2⟩ | ⟨_, h2, _⟩)
        · rcases h2 with h2 | h2 <;> exact absurd h2 (by decide)
        · exact absurd h2 (by decide)
        · exact absurd h2 (by decide)
    · exact Option.noConfusion h
  · rw [parseD] at h
    split at h
    · rename_i hcond
      injection h with h1
      injection h1 with hv ht
      subst ht
      rw [List.cons_append, List.cons_append, List.nil_append, parseD]
      rw [if_pos hcond, hv]
    · split at h
      · injection h with h1
        injection h1 with _ ht
        simp at ht
      · exact Option.noConfusion h

/-- Day values produced by `%d` lie in `1..31`. -/
lemma parseD_bounds {l l1 : List Char} {v : ℕ}
    (h : parseD l = some (v, l1)) : 1 ≤ v ∧ v ≤ 31 := by
  have hsingle : ∀ (a : Char), '1' ≤ a → a ≤ '9' →
      1 ≤ digVal a ∧ digVal a ≤ 31 := by
    intro a h1 h9
    have e1 : 49 ≤ a.toNat := char_toNat_le_of_le h1
    have e2 : a.toNat ≤ 57 := char_toNat_le_of_le h9
    unfold digVal
    omega
  rcases l with _ | ⟨a, _ | ⟨b, t⟩⟩
  · simp [parseD] at h
  · rw [parseD] at h
    split at h
    · rename_i hcond
      injection h with h1
      injection h1 with hv _
      rw [← hv]
      exact hsingle a hcond.1 hcond.2
    · exact Option.noConfusion h
  · rw [parseD] at h
    split at h
    · rename_i hcond
      injection h with h1
      injection h1 with hv _
      rw [← hv]
      rcases hcond with ⟨ha, hb⟩ | ⟨ha, hb⟩ | ⟨ha, hb, hb9⟩
      · subst ha
        rcases hb with hb | hb <;> subst hb <;> exact ⟨by decide, by decide⟩
      · obtain ⟨e1, e2⟩ := isDigit_toNat hb
        have c1 : ('1' : Char).toNat = 49 := by decide
        have c2 : ('2' : Char).toNat = 50 := by decide
        rcases ha with ha | ha <;> subst ha <;> unfold digVal <;>
          · constructor <;> omega
      · subst ha
        have e1 : 49 ≤ b.toNat := char_toNat_le_of_le hb
        have e2 : b.toNat ≤ 57 := char_toNat_le_of_le hb9
        have c0 : ('0' : Char).toNat = 48 := by decide
        unfold digVal
        constructor <;> omega
    · split at h
      · rename_i hcond
        injection h with h1
        injection h1 with hv _
        rw [← hv]
        exact hsingle a hcond.1 hcond.2
      · exact Option.noConfusion h

lemma parseM_01 (rr : List Char) : parseM ('0' :: '1' :: rr) = some (1, rr) := by
  rw [parseM]
  rw [if_pos (Or.inr ⟨rfl, by decide, by decide⟩)]
  rw [show 10 * digVal '0' + digVal '1' = 1 from by decide]

lemma parseY_four {y1 y2 y3 y4 : Char} (h1 : y1.isDigit = true)
    (h2 : y2.isDigit = true) (h3 : y3.isDigit = true) (h4 : y4.isDigit = true) :
    parseY [y1, y2, y3, y4] = some (natOfDigits [y1, y2, y3, y4], []) := by
  simp only [parseY]
  rw [if_pos ⟨h1, h2, h3, h4⟩]

/-- `strptime("<day>/01/<year>", "%d/%m/%Y")` succeeds whenever the day string
is a valid `%d` token and the year is nonzero. -/
lemma strptime_dmy_jan {dia : List Char} {v : ℕ}
    (hday : parseD dia = some (v, []))
    (y1 y2 y3 y4 : Char) (hy1 : y1.isDigit = true) (hy2 : y2.isDigit = true)
    (hy3 : y3.isDigit = true) (hy4 : y4.isDigit = true)
    (hyr : 1 ≤ natOfDigits [y1, y2, y3, y4]) :
    strptimeDate fmtDMYslash (dia ++ '/' :: '0' :: '1' :: '/' :: [y1, y2, y3, y4])
      = some ⟨natOfDigits [y1, y2, y3, y4], 1, v⟩ := by
  obtain ⟨hv1, hv31⟩ := parseD_bounds hday
  rw [strptimeDate, fmtDMYslash]
  rw [runItems, parseD_slash_extend hday, Option.some_bind]
  rw [runItems, litChar, if_pos rfl, Option.some_bind]
  rw [runItems, parseM_01, Option.some_bind]
  rw [runItems, litChar, if_pos rfl, Option.some_bind]
  rw [runItems, parseY_four hy1 hy2 hy3 hy4, Option.some_bind]
  rw [runItems, if_pos rfl, Option.some_bind]
  have hok : dateOk (natOfDigits [y1, y2, y3, y4]) 1 v = true := by
    unfold dateOk daysInMonth
    simp only [decide_eq_true_eq]
    refine ⟨hyr, by omega, by omega, hv1, ?_⟩
    rw [if_neg (by omega), if_neg (by omega)]
    exact hv31
  rw [if_pos hok]

lemma mesesGet_default {tok : List Char} (h : tok ∉ MESES.map Prod.fst) :
    mesesGet tok = "01".toList := by
  rw [mesesGet, List.find?_eq_none.mpr]
  · rfl
  · intro x hx
    simp only [decide_eq_true_eq]
    intro heq
    exact h (List.mem_map.mpr ⟨x, hx, heq⟩)

lemma map_lowerA_digits {l : List Char} (h : ∀ c ∈ l, c.isDigit = true) :
    l.map lowerA = l := by
  induction l with
  | nil => rfl
  | cons a t ih =>
      rw [List.map_cons, lowerA_digit (h a (List.mem_cons_self a t)),
        ih (fun c hc => h c (List.mem_cons_of_mem a hc))]

/-- The canonical pattern text matches at its head. -/
lemma fechaMatchAt_canonical
    (dia : List Char) (t1 t2 t3 y1 y2 y3 y4 : Char)
    (hdig : ∀ c ∈ dia, c.isDigit = true) (hne : dia ≠ [])
    (ht1 : 'a' ≤ t1 ∧ t1 ≤ 'z') (ht2 : 'a' ≤ t2 ∧ t2 ≤ 'z')
    (ht3 : 'a' ≤ t3 ∧ t3 ≤ 'z')
    (hy1 : y1.isDigit = true) (hy2 : y2.isDigit = true)
    (hy3 : y3.isDigit = true) (hy4 : y4.isDigit = true) :
    fechaMatchAt (dia ++ ' ' :: t1 :: t2 :: t3 :: ',' :: ' ' :: [y1, y2, y3, y4])
      = some (dia, [t1, t2, t3], [y1, y2, y3, y4]) := by
  have htw := takeWhile_prefix_all (p := Char.isDigit) dia ' '
    (t1 :: t2 :: t3 :: ',' :: ' ' :: [y1, y2, y3, y4]) hdig (by decide)
  have hdw := dropWhile_prefix_all (p := Char.isDigit) dia ' '
    (t1 :: t2 :: t3 :: ',' :: ' ' :: [y1, y2, y3, y4]) hdig (by decide)
  simp only [fechaMatchAt, htw, hdw, hne, if_false,
    (by decide : isWs ' ' = true), if_true, List.dropWhile_cons,
    not_ws_of_lower ht1.1, not_ws_of_digit hy1, Bool.false_eq_true,
    ht1.1, ht1.2, ht2.1, ht2.2, ht3.1, ht3.2, hy1, hy2, hy3, hy4,
    and_self, and_true, true_and]

/-- C9.  A string matching the date-extraction pattern whose three-letter
token is not a known Spanish month abbreviation is not treated as
unparseable: `MESES.get(mes_txt, '01')` silently substitutes January, and the
record is formatted as `<day>/01/<year>` and grouped under `01-<year>`. -/
theorem procesar_fecha_unknown_month
    (dia : List Char) (t1 t2 t3 y1 y2 y3 y4 : Char) (v : ℕ)
    (hdig : ∀ c ∈ dia, c.isDigit = true)
    (hday : parseD dia = some (v, []))
    (ht1 : 'a' ≤ t1 ∧ t1 ≤ 'z') (ht2 : 'a' ≤ t2 ∧ t2 ≤ 'z')
    (ht3 : 'a' ≤ t3 ∧ t3 ≤ 'z')
    (hnk : [t1, t2, t3] ∉ MESES.map Prod.fst)
    (hy1 : y1.isDigit = true) (hy2 : y2.isDigit = true)
    (hy3 : y3.isDigit = true) (hy4 : y4.isDigit = true)
    (hyr : 1 ≤ natOfDigits [y1, y2, y3, y4]) :
    procesar_fecha (String.mk
        (dia ++ ' ' :: t1 :: t2 :: t3 :: ',' :: ' ' :: [y1, y2, y3, y4]))
      = some (String.mk (dia ++ '/' :: '0' :: '1' :: '/' :: [y1, y2, y3, y4]),
              String.mk ('0' :: '1' :: '-' :: [y1, y2, y3, y4])) := by
  have hne : dia ≠ [] := by
    rintro rfl
    simp [parseD] at hday
  have hmatch := fechaMatchAt_canonical dia t1 t2 t3 y1 y2 y3 y4 hdig hne
    ht1 ht2 ht3 hy1 hy2 hy3 hy4
  have hmap : (dia ++ ' ' :: t1 :: t2 :: t3 :: ',' :: ' ' ::
      [y1, y2, y3, y4]).map lowerA
      = dia ++ ' ' :: t1 :: t2 :: t3 :: ',' :: ' ' :: [y1, y2, y3, y4] := by
    rw [List.map_append, map_lowerA_digits hdig]
    simp only [List.map_cons, List.map_nil,
      (by decide : lowerA ' ' = ' '), (by decide : lowerA ',' = ','),
      lowerA_lower ht1.1, lowerA_lower ht2.1, lowerA_lower ht3.1,
      lowerA_digit hy1, lowerA_digit hy2, lowerA_digit hy3, lowerA_digit hy4]
  obtain ⟨d0, dia2, hdia⟩ := List.exists_cons_of_ne_nil hne
  have hsearch : fechaSearch (dia ++ ' ' :: t1 :: t2 :: t3 :: ',' :: ' ' ::
      [y1, y2, y3, y4]) = some (dia, [t1, t2, t3], [y1, y2, y3, y4]) := by
    rw [hdia] at hmatch ⊢
    rw [List.cons_append] at hmatch ⊢
    rw [fechaSearch, hmatch, some_orElse]
  simp only [procesar_fecha]
  rw [show (String.mk (dia ++ ' ' :: t1 :: t2 :: t3 :: ',' :: ' ' ::
      [y1, y2, y3, y4])).toList
    = dia ++ ' ' :: t1 :: t2 :: t3 :: ',' :: ' ' :: [y1, y2, y3, y4] from rfl]
  rw [hmap, hsearch]
  simp only [mesesGet_default hnk]
  rw [show ("01".toList : List Char) = ['0', '1'] from rfl]
  rw [show (['0', '1'] ++ '/' :: [y1, y2, y3, y4] : List Char)
    = '0' :: '1' :: '/' :: [y1, y2, y3, y4] from rfl]
  rw [strptime_dmy_jan hday y1 y2 y3 y4 hy1 hy2 hy3 hy4 hyr]
  simp

/-- C9, witness: `"26 xyz, 2025"` has the unknown token `xyz` and is grouped
under January 2025. -/
theorem procesar_fecha_unknown_month_witness :
    procesar_fecha "26 xyz, 2025" = some ("26/01/2025", "01-2025") := by
  have h := procesar_fecha_unknown_month ['2', '6'] 'x' 'y' 'z' '2' '0' '2' '5' 26
    (by decide) (by decide) ⟨by decide, by decide⟩ ⟨by decide, by decide⟩
    ⟨by decide, by decide⟩ (by decide) (by decide) (by decide) (by decide)
    (by decide) (by decide)
  exact h

/-! ## Claim C5: dates in the aggregated output streams -/

/-- C5, counterexample.  The claim says no `unknown` date ever appears in an
output stream.  An aliexpress order block whose header has no recognisable
date is still written to the CSV, with the sentinel text
`Fecha desconocida` in its date column (and a `Desconocido` month bucket). -/
theorem aliexpress_sentinel_date_in_output :
    ARow.detail "Fecha desconocida" "AliExpress Europa S.L." (PyFloat.finite 0)
        "Pedido AliExpress (Sin nombre detectado)" "" "Tarjeta"
      ∈ (aliexpressMain [⟨"hello", none, none⟩]).getD []
    ∧ (aliexpressMain [⟨"hello", none, none⟩]).isSome = true := by
  refine ⟨by decide, by decide⟩

lemma strptimeDate_valid {fmt : List FmtItem} {l : List Char} {dt : MDate}
    (h : strptimeDate fmt l = some dt) : dt.Valid := by
  rw [strptimeDate] at h
  obtain ⟨⟨d, m, y⟩, _, hok⟩ := Option.bind_eq_some.mp h
  split at hok
  · rename_i hda
    injection hok with h1
    rw [← h1]
    exact hda
  · exact Option.noConfusion hok

lemma tryFmts_valid {fs : List (List FmtItem)} {l : List Char} {dt : MDate}
    (h : tryFmts fs l = some dt) : dt.Valid := by
  induction fs with
  | nil => simp [tryFmts] at h
  | cons f fs ih =>
      rw [tryFmts] at h
      cases hf : strptimeDate f l with
      | some d2 =>
          rw [hf, some_orElse] at h
          injection h with h1
          rw [← h1]
          exact strptimeDate_valid hf
      | none =>
          rw [hf, none_orElse] at h
          exact ih h

lemma parse_create_time_valid {raw : String} {dt : MDate}
    (h : parse_create_time_to_date raw = some dt) : dt.Valid := by
  rw [parse_create_time_to_date] at h
  split at h
  · exact Option.noConfusion h
  · exact tryFmts_valid h

lemma rowOf_valid {o : Order} {r : DRow} (h : rowOf o = some r) :
    r.fecha.Valid := by
  rw [rowOf] at h
  split at h
  · exact Option.noConfusion h
  · rename_i dt hdt
    injection h with h1
    rw [← h1]
    exact parse_create_time_valid hdt

lemma mem_insertByDate {x y : DRow} {l : List DRow}
    (h : x ∈ insertByDate y l) : x = y ∨ x ∈ l := by
  induction l with
  | nil => simpa [insertByDate] using h
  | cons a t ih =>
      rw [insertByDate] at h
      split at h
      · rcases List.mem_cons.mp h with h1 | h1
        · exact Or.inr (h1 ▸ List.mem_cons_self a t)
        · rcases ih h1 with h2 | h2
          · exact Or.inl h2
          · exact Or.inr (List.mem_cons_of_mem a h2)
      · rcases List.mem_cons.mp h with h1 | h1
        · exact Or.inl h1
        · exact Or.inr h1

lemma mem_sortByDate {x : DRow} {l : List DRow}
    (h : x ∈ sortByDate l) : x ∈ l := by
  induction l generalizing x with
  | nil => simp [sortByDate] at h
  | cons a t ih =>
      rw [sortByDate] at h
      rcases mem_insertByDate h with h1 | h1
      · exact h1 ▸ List.mem_cons_self a t
      · exact List.mem_cons_of_mem a (ih h1)

lemma aggGo_detail_mem {r : DRow} {rows : List DRow} {cur : Option (ℕ × ℕ)}
    {acc : ℚ} (h : CRow.detail r ∈ aggGo cur acc rows) : r ∈ rows := by
  induction rows generalizing cur acc with
  | nil =>
      exfalso
      cases cur with
      | none => simp [aggGo] at h
      | some k => simp [aggGo] at h
  | cons r0 rs ih =>
      cases cur with
      | none =>
          rw [aggGo] at h
          rcases List.mem_cons.mp h with h1 | h1
          · injection h1 with h2
            exact h2 ▸ List.mem_cons_self r0 rs
          · exact List.mem_cons_of_mem r0 (ih h1)
      | some c =>
          rw [aggGo] at h
          split at h
          · rcases List.mem_cons.mp h with h1 | h1
            · injection h1 with h2
              exact h2 ▸ List.mem_cons_self r0 rs
            · exact List.mem_cons_of_mem r0 (ih h1)
          · rcases List.mem_cons.mp h with h1 | h1
            · exact absurd h1 (by simp)
            · rcases List.mem_cons.mp h1 with h2 | h2
              · injection h2 with h3
                exact h3 ▸ List.mem_cons_self r0 rs
              · exact List.mem_cons_of_mem r0 (ih h2)

/-- C5, amended.  In the cnfans stream the claim holds: orders without a
parseable date are skipped, and every detail row that reaches the output
carries a calendar-valid date.  The aliexpress stream instead substitutes the
sentinel `Fecha desconocida`, which does appear in its output. -/
theorem cnfans_output_dates_valid (orders : List Order) (r : DRow)
    (h : CRow.detail r ∈ build_expense_rows orders) : r.fecha.Valid := by
  rw [build_expense_rows, aggregate] at h
  have h1 := mem_sortByDate (aggGo_detail_mem h)
  obtain ⟨o, _, ho⟩ := List.mem_filterMap.mp h1
  exact rowOf_valid ho

/-- C5, witness: a concrete cnfans order yields a detail row whose date
9 December 2025 is calendar-valid. -/
theorem cnfans_output_dates_valid_witness :
    CRow.detail ⟨⟨2025, 12, 9⟩, 10, "pedido sin producto", "1"⟩
      ∈ build_expense_rows [⟨"1", "09-12-2025", "", "", "", "", "10", "", []⟩]
    ∧ MDate.Valid ⟨2025, 12, 9⟩ := by
  refine ⟨by decide, ?_⟩
  exact cnfans_output_dates_valid
    [⟨"1", "09-12-2025", "", "", "", "", "10", "", []⟩]
    ⟨⟨2025, 12, 9⟩, 10, "pedido sin producto", "1"⟩ (by decide)

/-! ## Claim C2: monthly summary placement and sums -/

/-- C2, counterexample.  The claim says summary rows sit immediately after
the last detail row of their month, not grouped at the end.  In the
aliexpress stream for a November and a December order, the row after the
last November detail row (index 0) is the December detail row, and the
November summary appears only at index 4, after the blank row and the
`RESUMEN MENSUAL` header — all summaries are grouped at the end. -/
theorem aliexpress_totals_grouped_at_end :
    ((aliexpressMain aliTwoMonths).getD []).length = 6
    ∧ (((aliexpressMain aliTwoMonths).getD []).get? 0).bind rowFecha
        = some "5/11/2025"
    ∧ (((aliexpressMain aliTwoMonths).getD []).get? 1).bind rowFecha
        = some "3/12/2025"
    ∧ (((aliexpressMain aliTwoMonths).getD []).get? 1).bind rowMes = none
    ∧ (((aliexpressMain aliTwoMonths).getD []).get? 4).bind rowMes
        = some "11-2025"
    ∧ (((aliexpressMain aliTwoMonths).getD []).get? 5).bind rowMes
        = some "12-2025" := by
  refine ⟨by decide, by decide, by decide, by decide, by decide, by decide⟩

/-- A run of rows of the open month is emitted as detail rows while the sum
accumulates. -/
lemma aggGo_run (k : ℕ × ℕ) (g rest : List DRow) (s : ℚ)
    (hg : ∀ r ∈ g, ymKey r.fecha = k) :
    aggGo (some k) s (g ++ rest)
      = g.map CRow.detail ++ aggGo (some k) (s + sumImporte g) rest := by
  induction g generalizing s with
  | nil => simp [sumImporte]
  | cons r g' ih =>
      rw [List.cons_append, aggGo, if_pos (hg r (List.mem_cons_self r g'))]
      rw [ih (s + r.importe) (fun x hx => hg x (List.mem_cons_of_mem r hx))]
      rw [show sumImporte (r :: g') = r.importe + sumImporte g' from by
        simp [sumImporte]]
      rw [← add_assoc]
      simp

/-- The terminal run: remaining same-month rows then the final summary. -/
lemma aggGo_run_final (k : ℕ × ℕ) (g : List DRow) (s : ℚ)
    (hg : ∀ r ∈ g, ymKey r.fecha = k) :
    aggGo (some k) s g
      = g.map CRow.detail ++ [CRow.total (s + sumImporte g) (mesLabel k)] := by
  have h := aggGo_run k g [] s hg
  rw [List.append_nil] at h
  rw [h, aggGo]

/-- C2, amended.  The cnfans aggregator satisfies the claim: for a
date-sorted input spanning three months it emits each month's detail rows
followed immediately by that month's summary row carrying the exact sum, and
a final summary for the last month; the aliexpress script instead groups all
monthly summaries at the end of its stream. -/
theorem aggregate_three_months
    (g1 g2 g3 : List DRow) (k1 k2 k3 : ℕ × ℕ)
    (h1 : g1 ≠ []) (h2 : g2 ≠ []) (h3 : g3 ≠ [])
    (hg1 : ∀ r ∈ g1, ymKey r.fecha = k1)
    (hg2 : ∀ r ∈ g2, ymKey r.fecha = k2)
    (hg3 : ∀ r ∈ g3, ymKey r.fecha = k3)
    (h12 : k1 ≠ k2) (h23 : k2 ≠ k3) (h13 : k1 ≠ k3) :
    aggregate (g1 ++ g2 ++ g3)
      = g1.map CRow.detail ++ CRow.total (sumImporte g1) (mesLabel k1)
        :: (g2.map CRow.detail ++ CRow.total (sumImporte g2) (mesLabel k2)
        :: (g3.map CRow.detail
            ++ [CRow.total (sumImporte g3) (mesLabel k3)])) := by
  obtain ⟨r1, g1t, rfl⟩ := List.exists_cons_of_ne_nil h1
  obtain ⟨r2, g2t, rfl⟩ := List.exists_cons_of_ne_nil h2
  obtain ⟨r3, g3t, rfl⟩ := List.exists_cons_of_ne_nil h3
  rw [aggregate]
  simp only [List.cons_append, List.append_assoc]
  rw [aggGo, hg1 r1 (List.mem_cons_self r1 g1t)]
  rw [aggGo_run k1 g1t _ _ (fun x hx => hg1 x (List.mem_cons_of_mem r1 hx))]
  rw [aggGo]
  rw [if_neg (by
    rw [hg2 r2 (List.mem_cons_self r2 g2t)]
    exact fun he => h12 he.symm)]
  rw [hg2 r2 (List.mem_cons_self r2 g2t)]
  rw [aggGo_run k2 g2t _ _ (fun x hx => hg2 x (List.mem_cons_of_mem r2 hx))]
  rw [aggGo]
  rw [if_neg (by
    rw [hg3 r3 (List.mem_cons_self r3 g3t)]
    exact fun he => h23 he.symm)]
  rw [hg3 r3 (List.mem_cons_self r3 g3t)]
  rw [aggGo_run_final k3 g3t _ (fun x hx => hg3 x (List.mem_cons_of_mem r3 hx))]
  rw [show sumImporte (r1 :: g1t) = r1.importe + sumImporte g1t from by
    simp [sumImporte]]
  rw [show sumImporte (r2 :: g2t) = r2.importe + sumImporte g2t from by
    simp [sumImporte]]
  rw [show sumImporte (r3 :: g3t) = r3.importe + sumImporte g3t from by
    simp [sumImporte]]
  simp [zero_add, List.append_assoc]

/-- C2, witness: four date-sorted rows spanning November 2025 (10 and 5),
December 2025 (7) and January 2026 (3) produce the interleaved stream with
exact monthly sums 15, 7 and 3. -/
theorem aggregate_three_months_witness :
    aggregate [⟨⟨2025, 11, 15⟩, 10, "a", "1"⟩, ⟨⟨2025, 11, 20⟩, 5, "b", "2"⟩,
               ⟨⟨2025, 12, 1⟩, 7, "c", "3"⟩, ⟨⟨2026, 1, 2⟩, 3, "d", "4"⟩]
      = [CRow.detail ⟨⟨2025, 11, 15⟩, 10, "a", "1"⟩,
         CRow.detail ⟨⟨2025, 11, 20⟩, 5, "b", "2"⟩,
         CRow.total 15 "TOTAL MES 2025-11",
         CRow.detail ⟨⟨2025, 12, 1⟩, 7, "c", "3"⟩,
         CRow.total 7 "TOTAL MES 2025-12",
         CRow.detail ⟨⟨2026, 1, 2⟩, 3, "d", "4"⟩,
         CRow.total 3 "TOTAL MES 2026-01"] := by
  have h := aggregate_three_months
    [⟨⟨2025, 11, 15⟩, 10, "a", "1"⟩, ⟨⟨2025, 11, 20⟩, 5, "b", "2"⟩]
    [⟨⟨2025, 12, 1⟩, 7, "c", "3"⟩] [⟨⟨2026, 1, 2⟩, 3, "d", "4"⟩]
    (2025, 11) (2025, 12) (2026, 1)
    (by simp) (by simp) (by simp)
    (by decide) (by decide) (by decide)
    (by decide) (by decide) (by decide)
  refine h.trans ?_
  norm_num [sumImporte, mesLabel, pad2]
  exact ⟨rfl, rfl, rfl⟩

/-! ## Claim C8: label derivation and truncation -/

/-- C8, counterexample.  The claim says every final display label is
truncated to at most 80 characters with an ellipsis.  The cnfans stream
never truncates: a 100-character product name yields the 107-character label
`pedido <name>` in the output, with no ellipsis. -/
theorem cnfans_label_not_truncated :
    CRow.detail ⟨⟨2025, 12, 9⟩, 10,
        "pedido " ++ String.mk (List.replicate 100 'a'), "1"⟩
      ∈ build_expense_rows [⟨"1", "09-12-2025", "", "", "", "", "10", "",
          [String.mk (List.replicate 100 'a')]⟩]
    ∧ ("pedido " ++ String.mk (List.replicate 100 'a')).length = 107
    ∧ 80 < 107 := by
  refine ⟨by decide, by decide, by decide⟩

lemma firstKwName_eq (ps : List String) :
    firstKwName ps = (ps.map stripName).find?
      (fun n => decide (n ≠ "") && hasHoodieKeyword n.toList) := by
  induction ps with
  | nil => rfl
  | cons p r ih =>
      rw [firstKwName, List.map_cons]
      by_cases hc : pyStrip p.toList ≠ [] ∧ hasHoodieKeyword (pyStrip p.toList) = true
      · rw [if_pos hc]
        rw [List.find?_cons_of_pos]
        · rfl
        · simp only [stripName, Bool.and_eq_true, decide_eq_true_eq]
          refine ⟨?_, hc.2⟩
          simp [String.ext_iff]
          exact hc.1
      · rw [if_neg hc]
        rw [List.find?_cons_of_neg, ih]
        simp only [stripName, Bool.and_eq_true, decide_eq_true_eq]
        intro hcc
        apply hc
        refine ⟨?_, ?_⟩
        · have := hcc.1
          simp [String.ext_iff] at this
          exact this
        · exact hcc.2

lemma firstNonEmptyName_eq (ps : List String) :
    firstNonEmptyName ps
      = (ps.map stripName).find? (fun n => decide (n ≠ "")) := by
  induction ps with
  | nil => rfl
  | cons p r ih =>
      rw [firstNonEmptyName, List.map_cons]
      by_cases hc : pyStrip p.toList ≠ []
      · rw [if_pos hc]
        rw [List.find?_cons_of_pos]
        · rfl
        · simp only [stripName, decide_eq_true_eq]
          simp [String.ext_iff]
          exact hc
      · rw [if_neg hc]
        rw [List.find?_cons_of_neg, ih]
        simp only [stripName, decide_eq_true_eq]
        intro hcc
        apply hc
        simp [String.ext_iff] at hcc
        exact hcc

/-- C8, amended.  The scan contract holds for `pick_hoodie_name` (first
keyword match, else first nonempty stripped name, else the placeholder), and
the aliexpress script truncates its labels to exactly 80 characters with a
`...` marker; the cnfans labels are emitted untruncated. -/
theorem label_derivation_amended :
    (∀ ps : List String, pick_hoodie_name ps = specLabel ps)
    ∧ (∀ nm : String, 80 < ("Pedido: " ++ nm).length →
        aliConcepto (some nm)
            = String.mk (("Pedido: " ++ nm).toList.take 77) ++ "..."
        ∧ (aliConcepto (some nm)).length = 80) := by
  constructor
  · intro ps
    by_cases hps : ps = []
    · subst hps
      rfl
    · rw [pick_hoodie_name, if_neg hps, specLabel, ← firstKwName_eq,
        ← firstNonEmptyName_eq]
  · intro nm h
    have harm : aliConcepto (some nm)
        = String.mk (("Pedido: " ++ nm).toList.take 77) ++ "..." := by
      rw [aliConcepto]
      rw [if_pos h]
    refine ⟨harm, ?_⟩
    rw [harm]
    have hlen : ("Pedido: " ++ nm).toList.length = ("Pedido: " ++ nm).length := rfl
    have h77 : (("Pedido: " ++ nm).toList.take 77).length = 77 := by
      rw [List.length_take, hlen]
      omega
    have hstep : (String.mk (("Pedido: " ++ nm).toList.take 77) ++ "...").length
        = (("Pedido: " ++ nm).toList.take 77 ++ ['.', '.', '.']).length := rfl
    rw [hstep, List.length_append, h77]
    rfl

/-- C8, witness: a keyword hit is returned by both formulations, and a
100-character name is truncated by the aliexpress script to exactly 80
characters ending in `...`. -/
theorem label_derivation_amended_witness :
    pick_hoodie_name ["socks", "red Hoodie"] = specLabel ["socks", "red Hoodie"]
    ∧ specLabel ["socks", "red Hoodie"] = "red Hoodie"
    ∧ 80 < ("Pedido: " ++ String.mk (List.replicate 100 'a')).length
    ∧ aliConcepto (some (String.mk (List.replicate 100 'a')))
        = String.mk (("Pedido: " ++ String.mk (List.replicate 100 'a')).toList.take 77)
            ++ "..."
    ∧ (aliConcepto (some (String.mk (List.replicate 100 'a')))).length = 80 := by
  refine ⟨label_derivation_amended.1 ["socks", "red Hoodie"], by decide, by decide,
    (label_derivation_amended.2 (String.mk (List.replicate 100 'a')) (by decide)).1,
    (label_derivation_amended.2 (String.mk (List.replicate 100 'a')) (by decide)).2⟩

/-! ## Claim C10: the PDF splitter partitions the ledger -/

lemma dividirImporteGo_flatten (lim : ℚ) (n : ℕ) (rows : List Fila)
    (partes : List (List Fila)) (parte : List Fila) (acc : ℚ) :
    (dividirImporteGo lim n partes parte acc rows).flatten
      = partes.flatten ++ parte ++ rows := by
  induction rows generalizing partes parte acc with
  | nil =>
      rw [dividirImporteGo]
      split
      · simp [List.flatten_append]
      · rename_i hp
        simp only [ne_eq, not_not] at hp
        simp [hp]
  | cons fila rest ih =>
      rw [dividirImporteGo]
      split
      · rw [ih]
        simp [List.flatten_append, List.append_assoc]
      · rw [ih]
        simp [List.append_assoc]

lemma dividirImporteGo_length (lim : ℚ) (n : ℕ) (hn : 1 ≤ n)
    (rows : List Fila) (partes : List (List Fila)) (parte : List Fila)
    (acc : ℚ) (hp : partes.length ≤ n - 1) :
    (dividirImporteGo lim n partes parte acc rows).length ≤ n := by
  induction rows generalizing partes parte acc with
  | nil =>
      rw [dividirImporteGo]
      split
      · rw [List.length_append]
        simp
        omega
      · omega
  | cons fila rest ih =>
      rw [dividirImporteGo]
      split
      · rename_i hcond
        refine ih _ _ _ ?_
        rw [List.length_append]
        have := hcond.2.2
        simp
        omega
      · exact ih _ _ _ hp

lemma slices_flatten (l : List Fila) (k : ℕ) (m : ℕ) :
    ((List.range m).map (fun i => (l.drop (i * k)).take k)).flatten
      = l.take (m * k) := by
  induction m with
  | zero => simp
  | succ m ih =>
      rw [List.range_succ, List.map_append, List.flatten_append, ih]
      simp only [List.map_cons, List.map_nil, List.flatten_cons,
        List.flatten_nil, List.append_nil]
      rw [← List.take_add, Nat.succ_mul]

lemma dividirPorRegistros_flatten (filas : List Fila) (n : ℕ) (hn : 1 ≤ n) :
    (dividirPorRegistros filas n).flatten = filas := by
  rw [dividirPorRegistros]
  obtain ⟨m, rfl⟩ : ∃ m, n = m + 1 := ⟨n - 1, by omega⟩
  rw [List.range_succ, List.map_append, List.flatten_append]
  have hmap : (List.range m).map
        (fun i => if i = m + 1 - 1 then filas.drop (i * (filas.length / (m + 1)))
          else (filas.drop (i * (filas.length / (m + 1)))).take
            (filas.length / (m + 1)))
      = (List.range m).map
        (fun i => (filas.drop (i * (filas.length / (m + 1)))).take
          (filas.length / (m + 1))) := by
    apply List.map_congr_left
    intro i hi
    rw [if_neg]
    have := List.mem_range.mp hi
    omega
  rw [hmap, slices_flatten]
  simp only [List.map_cons, List.map_nil, List.flatten_cons, List.flatten_nil,
    List.append_nil, Nat.add_sub_cancel, if_pos rfl]
  exact List.take_append_drop _ _

lemma flatten_total {parts : List (List Fila)} {filas : List Fila}
    (h : parts.flatten = filas) :
    (parts.map filasTotal).sum = filasTotal filas := by
  calc (parts.map filasTotal).sum
      = ((parts.map (List.map extraer_importe)).map List.sum).sum := by
        rw [List.map_map]
        rfl
    _ = ((parts.map (List.map extraer_importe)).flatten).sum :=
        List.sum_flatten.symm
    _ = ((parts.flatten).map extraer_importe).sum := by
        rw [← List.map_flatten]
    _ = (filas.map extraer_importe).sum := by rw [h]

/-- C10.  For every ledger, every `num_partes ≥ 1` and either splitting
method, the splitter produces a partition of its input: concatenating the
parts in order gives back exactly the input rows, at most `num_partes` parts
are produced, and hence the per-part totals sum to the grand total. -/
theorem dividir_partition (filas : List Fila) (numPartes : ℕ) (metodo : String)
    (hn : 1 ≤ numPartes) :
    (dividirEnPartes filas numPartes metodo).flatten = filas
    ∧ (dividirEnPartes filas numPartes metodo).length ≤ numPartes
    ∧ ((dividirEnPartes filas numPartes metodo).map filasTotal).sum
        = filasTotal filas := by
  have hmain : (dividirEnPartes filas numPartes metodo).flatten = filas
      ∧ (dividirEnPartes filas numPartes metodo).length ≤ numPartes := by
    rw [dividirEnPartes]
    split
    · rw [dividirPorImporte]
      constructor
      · rw [dividirImporteGo_flatten]
        simp
      · exact dividirImporteGo_length _ _ hn _ _ _ _ (by simp)
    · constructor
      · exact dividirPorRegistros_flatten filas numPartes hn
      · rw [dividirPorRegistros]
        simp
  exact ⟨hmain.1, hmain.2, flatten_total hmain.1⟩

/-- C10, witness: three rows split into two parts by row count form a
partition with matching totals. -/
theorem dividir_partition_witness :
    (1 : ℕ) ≤ 2
    ∧ (dividirEnPartes [["a", "b", "10"], ["c", "d", "20"], ["e", "f", "30"]]
        2 "registros").flatten
        = [["a", "b", "10"], ["c", "d", "20"], ["e", "f", "30"]]
    ∧ (dividirEnPartes [["a", "b", "10"], ["c", "d", "20"], ["e", "f", "30"]]
        2 "registros").length ≤ 2
    ∧ ((dividirEnPartes [["a", "b", "10"], ["c", "d", "20"], ["e", "f", "30"]]
        2 "registros").map filasTotal).sum
        = filasTotal [["a", "b", "10"], ["c", "d", "20"], ["e", "f", "30"]] := by
  have h := dividir_partition
    [["a", "b", "10"], ["c", "d", "20"], ["e", "f", "30"]] 2 "registros"
    (by decide)
  exact ⟨by decide, h.1, h.2.1, h.2.2⟩
